import Mathlib

/-!
# JSON transformer (`main.go`): a shallow embedding and its properties

The program decodes a type-tagged JSON document (every scalar or collection wrapped in a
single-key object `{"S": ..}`, `{"N": ..}`, `{"BOOL": ..}`, `{"NULL": ..}`, `{"L": ..}`,
`{"M": ..}`) into a plain JSON document.

Modelling decisions.

* A Go `string` that comes out of `encoding/json` is valid UTF-8, so it is a Lean `String`.
* A parsed JSON value (`interface{}` filled by `json.Unmarshal`) is a `JSON`. An object is the
  list of its entries *in the order in which `range` visits them*: Go leaves that order
  unspecified, so a statement about "the" object is a statement about every such list.
* A Go call returning `(value, error)` returns a `Res`: `ok v` for `(v, nil)`, `fail msg` for a
  non-nil error (the value next to a non-nil error is never read by this program), and `panic`
  for a run-time panic, which here can only be the unchecked type assertion `val.(string)` of
  `transformList`.
* An `interface{}` result is an `Option Plain`: `none` is the nil interface (the spec's
  *Absent*), `some v` a value with a dynamic type.
* A `map[string]interface{}` built by the program is a `GoMap`: the list of its entries kept in
  increasing key order, so that two Go maps with the same entries are the same Lean value.
* Library functions whose behaviour is a matter of the Go release (`strconv.ParseFloat`,
  `time.Parse`, the Unicode case tables) are the fields of a `GoLib`; every definition takes the
  library as its first argument and the theorems are stated for an arbitrary library, with what
  they need of it as a hypothesis.
* For timestamps two readings stand side by side: `rfc3339Valid`, the `date-time` grammar of
  RFC 3339, and `goTimeUnix`, the layout `time.RFC3339` as Go's `time.Parse` matches it. They
  differ in both directions, and the program follows the second.
* `int` is 64 bits wide (the width on every 64-bit Go target).
-/

namespace GoJson

/-! ## Values -/

/-- An IEEE-754 binary64 value, as its bit pattern. The program never computes with floats: it
only passes them through. -/
structure Float64 where
  bits : Nat
deriving DecidableEq, Repr

/-- A parsed JSON document, as `json.Unmarshal` stores it in an `interface{}`:
`nil`, `bool`, `float64`, `string`, `[]interface{}`, `map[string]interface{}`. -/
inductive JSON where
  | null
  | bool (b : Bool)
  | num (f : Float64)
  | str (s : String)
  | arr (xs : List JSON)
  | obj (kvs : List (String × JSON))

/-- A non-nil `interface{}` produced by the transformer, by dynamic type. -/
inductive Plain where
  | str (s : String)
  | int (n : Int)
  | int64 (n : Int)
  | float (f : Float64)
  | bool (b : Bool)
  | list (xs : List Plain)
  | map (m : List (String × Plain))

/-- The outcome of a Go call that returns `(value, error)`. -/
inductive Res (α : Type) where
  | ok (v : α)
  | fail (msg : String)
  | panic

/-- Re-type the value of a successful outcome; an error or a panic is passed on. -/
def Res.map {α β : Type} (f : α → β) : Res α → Res β
  | .ok v => .ok (f v)
  | .fail msg => .fail msg
  | .panic => .panic

/-- The part of the Go standard library whose exact behaviour is left open. -/
structure GoLib where
  /-- `strconv.ParseFloat(s, 64)`: the value when `err == nil`, `none` otherwise. -/
  parseFloat : String → Option Float64
  /-- `time.Parse(time.RFC3339, s)` followed by `Unix()`: the epoch seconds when `err == nil`. -/
  parseRFC3339 : String → Option Int
  /-- `unicode.ToLower` on a rune above U+007F. -/
  unicodeToLower : Char → Char

/-! ## Go maps -/

/-- A `map[string]interface{}` of output values. -/
abbrev GoMap := List (String × Plain)

/-- Code-point order on strings (the order of their UTF-8 bytes). -/
def strLt : List Char → List Char → Bool
  | [], [] => false
  | [], _ :: _ => true
  | _ :: _, [] => false
  | a :: as, b :: bs => decide (a.toNat < b.toNat) || (decide (a.toNat = b.toNat) && strLt as bs)

/-- The store `m[k] = v`: it replaces the entry of `k` or adds one. -/
def GoMap.set : GoMap → String → Plain → GoMap
  | [], k, v => [(k, v)]
  | (k', v') :: rest, k, v =>
    if k = k' then (k, v) :: rest
    else if strLt k.data k'.data then (k, v) :: (k', v') :: rest
    else (k', v') :: GoMap.set rest k v

/-- The lookup `m[k]`, `none` when `k` is not a key. -/
def GoMap.get : GoMap → String → Option Plain
  | [], _ => none
  | (k', v') :: rest, k => if k = k' then some v' else GoMap.get rest k

/-- The keys of a map. -/
def GoMap.keys (m : GoMap) : List String := m.map Prod.fst

/-! ## Library functions with a fixed behaviour -/

/-- The predicate `unicode.IsSpace`. -/
def isSpace (c : Char) : Bool :=
  let n := c.toNat
  n = 0x09 || n = 0x0A || n = 0x0B || n = 0x0C || n = 0x0D || n = 0x20 || n = 0x85 || n = 0xA0 ||
  n = 0x1680 || (0x2000 ≤ n && n ≤ 0x200A) || n = 0x2028 || n = 0x2029 || n = 0x202F ||
  n = 0x205F || n = 0x3000

/-- The function `strings.TrimSpace`. -/
def trimSpace (s : String) : String :=
  ⟨((s.data.dropWhile isSpace).reverse.dropWhile isSpace).reverse⟩

/-- The call `strings.TrimLeft(s, "0")`. -/
def trimLeftZeros (s : String) : String :=
  ⟨s.data.dropWhile (fun c => c = '0')⟩

/-- The function `unicode.ToLower`: fixed on ASCII, the library's table above it. -/
def toLowerRune (lib : GoLib) (c : Char) : Char :=
  if c.toNat < 128 then
    (if 'A'.toNat ≤ c.toNat ∧ c.toNat ≤ 'Z'.toNat then Char.ofNat (c.toNat + 32) else c)
  else lib.unicodeToLower c

/-- The function `strings.ToLower`. -/
def toLower (lib : GoLib) (s : String) : String :=
  ⟨s.data.map (toLowerRune lib)⟩

/-- The value of a non-empty run of ASCII decimal digits, `none` for anything else. -/
def parseDigits : List Char → Option Nat
  | [] => none
  | c :: cs =>
    (c :: cs).foldl
      (fun acc d =>
        match acc with
        | some n => if '0'.toNat ≤ d.toNat ∧ d.toNat ≤ '9'.toNat then some (n * 10 + (d.toNat - 48)) else none
        | none => none)
      (some 0)

/-- The function `strconv.Atoi` for a 64-bit `int`: an optional sign, then decimal digits, and
the value within the range of the type; `none` when it returns an error. -/
def atoi (s : String) : Option Int :=
  match s.data with
  | '-' :: ds =>
    match parseDigits ds with
    | some n => if n ≤ 2 ^ 63 then some (-(n : Int)) else none
    | none => none
  | '+' :: ds =>
    match parseDigits ds with
    | some n => if n < 2 ^ 63 then some (n : Int) else none
    | none => none
  | ds =>
    match parseDigits ds with
    | some n => if n < 2 ^ 63 then some (n : Int) else none
    | none => none

/-! ## The scalar normalizers -/

/-- The function `transformString`. -/
def transformString (lib : GoLib) (input : String) : Res (Option Plain) :=
  let sanitized := trimSpace input
  if sanitized = "" ∨ sanitized = "noop" then .ok none
  else
    match lib.parseRFC3339 sanitized with
    | some unix => .ok (some (.int64 unix))
    | none => .ok (some (.str sanitized))

/-- The function `isValidNumber`. -/
def isValidNumber (lib : GoLib) (s : String) : Bool :=
  (lib.parseFloat s).isSome

/-- The function `transformNumber`. -/
def transformNumber (lib : GoLib) (input : String) : Res (Option Plain) :=
  let sanitized := trimLeftZeros (trimSpace input)
  if sanitized = "" ∨ isValidNumber lib sanitized = false then .ok none
  else
    match atoi sanitized with
    | some i => .ok (some (.int i))
    | none =>
      match lib.parseFloat sanitized with
      | some f => .ok (some (.float f))
      | none => .ok none

/-- The function `transformBool`. -/
def transformBool (lib : GoLib) (input : String) : Res (Option Plain) :=
  let sanitized := toLower lib (trimSpace input)
  if sanitized = "1" ∨ sanitized = "t" ∨ sanitized = "true" then .ok (some (.bool true))
  else if sanitized = "0" ∨ sanitized = "f" ∨ sanitized = "false" then .ok (some (.bool false))
  else .ok none

/-- The function `transformNull`. -/
def transformNull (lib : GoLib) (input : String) : Res (Option Plain) :=
  let sanitized := toLower lib (trimSpace input)
  if sanitized = "true" ∨ sanitized = "t" ∨ sanitized = "1" then .ok none
  else .ok none

/-! ## List decoding -/

/-- What `transformList` does with the outcome of a normalizer: `if v, err := f(..); err == nil
&& v != nil { list = append(list, v) }`. -/
def appendIfValue (list : List Plain) : Res (Option Plain) → Res (List Plain)
  | .ok (some v) => .ok (list ++ [v])
  | .ok none => .ok list
  | .fail _ => .ok list
  | .panic => .panic

/-- The inner loop of `transformList`, `for key, val := range itemMap`, from the list built so
far. The assertion `val.(string)` panics when `val` is not a string. -/
def transformListItem (lib : GoLib) : List (String × JSON) → List Plain → Res (List Plain)
  | [], list => .ok list
  | (key, val) :: rest, list =>
    if key = "N" then
      match val with
      | .str s =>
        match appendIfValue list (transformNumber lib s) with
        | .ok list1 => transformListItem lib rest list1
        | r => r
      | _ => .panic
    else if key = "BOOL" then
      match val with
      | .str s =>
        match appendIfValue list (transformBool lib s) with
        | .ok list1 => transformListItem lib rest list1
        | r => r
      | _ => .panic
    else if key = "S" then
      match val with
      | .str s =>
        match appendIfValue list (transformString lib s) with
        | .ok list1 => transformListItem lib rest list1
        | r => r
      | _ => .panic
    else transformListItem lib rest list

/-- The outer loop of `transformList`, `for _, item := range input`, from the list built so
far. -/
def transformListLoop (lib : GoLib) : List JSON → List Plain → Res (List Plain)
  | [], list => .ok list
  | item :: rest, list =>
    match item with
    | .obj itemMap =>
      match transformListItem lib itemMap list with
      | .ok list1 => transformListLoop lib rest list1
      | r => r
    | _ => transformListLoop lib rest list

/-- The function `transformList`. -/
def transformList (lib : GoLib) (input : List JSON) : Res (List Plain) :=
  match transformListLoop lib input [] with
  | .ok list =>
    if list.length = 0 then .fail "list is empty or contains no valid items" else .ok list
  | r => r

/-! ## Map decoding and type dispatch -/

mutual
/-- The loop of `transformMap`, `for key, value := range input`, from the map built so far. -/
def transformMapLoop (lib : GoLib) : List (String × JSON) → GoMap → Res GoMap
  | [], transformed => .ok transformed
  | (key, value) :: rest, transformed =>
    if trimSpace key = "" then transformMapLoop lib rest transformed
    else
      match handleIfMap lib (trimSpace key) value with
      | some (.ok (some transformedValue)) =>
        transformMapLoop lib rest (GoMap.set transformed (trimSpace key) transformedValue)
      | some (.ok none) => transformMapLoop lib rest transformed
      | some (.fail _) => transformMapLoop lib rest transformed
      | some .panic => .panic
      | none => transformMapLoop lib rest transformed
termination_by structural x => x
/-- The guarded call `if v, ok := value.(map[string]interface{}); ok { handleDataTypes(key, v) }`
of `transformMap`: `none` when the assertion fails. -/
def handleIfMap (lib : GoLib) (key : String) : JSON → Option (Res (Option Plain))
  | .obj v => some (handleDataTypes lib key v)
  | _ => none
termination_by structural x => x
/-- The function `handleDataTypes(key, value)`. -/
def handleDataTypes (lib : GoLib) (key : String) : List (String × JSON) → Res (Option Plain)
  | [] => .fail ("invalid type or unsupported key: " ++ key)
  | (typeKey, typeValue) :: rest =>
    if trimSpace typeKey = "S" then
      match typeValue with
      | .str str => transformString lib str
      | _ => handleDataTypes lib key rest
    else if trimSpace typeKey = "N" then
      match typeValue with
      | .str str => transformNumber lib str
      | _ => handleDataTypes lib key rest
    else if trimSpace typeKey = "BOOL" then
      match typeValue with
      | .str str =>
        match transformBool lib str with
        | .ok (some transformedBool) => .ok (some transformedBool)
        | .ok none => .ok none
        | .fail _ => .ok none
        | .panic => .panic
      | _ => handleDataTypes lib key rest
    else if trimSpace typeKey = "NULL" then
      match typeValue with
      | .str str =>
        match transformNull lib str with
        | .ok none => .ok none
        | r => r
      | _ => handleDataTypes lib key rest
    else if trimSpace typeKey = "L" then
      match typeValue with
      | .arr list => (transformList lib list).map (fun l => some (.list l))
      | _ => handleDataTypes lib key rest
    else if trimSpace typeKey = "M" then
      match transformIfMap lib typeValue with
      | some r => r.map (fun m => some (.map m))
      | none => handleDataTypes lib key rest
    else handleDataTypes lib key rest
termination_by structural x => x
/-- The guarded call `if m, ok := typeValue.(map[string]interface{}); ok { transformMap(m) }` of
`handleDataTypes`: `none` when the assertion fails. -/
def transformIfMap (lib : GoLib) : JSON → Option (Res GoMap)
  | .obj m => some (transformMapLoop lib m [])
  | _ => none
termination_by structural x => x
end

/-- The function `transformMap`. -/
def transformMap (lib : GoLib) (input : List (String × JSON)) : Res GoMap :=
  transformMapLoop lib input []

/-- The function `TransformJSON`. -/
def TransformJSON (lib : GoLib) : JSON → Res (Option Plain)
  | .obj v => (transformMap lib v).map (fun m => some (.map m))
  | .arr v => (transformList lib v).map (fun l => some (.list l))
  | _ => .fail "input must be a JSON object or array"

/-! ## Vocabulary of the statements -/

/-- The value is a JSON string. -/
def JSON.isString : JSON → Bool
  | .str _ => true
  | _ => false

/-- The value is a JSON array. -/
def JSON.isArray : JSON → Bool
  | .arr _ => true
  | _ => false

/-- The value is a JSON object. -/
def JSON.isObject : JSON → Bool
  | .obj _ => true
  | _ => false

/-- An ASCII decimal digit. -/
def isDigit (c : Char) : Bool := decide ('0'.toNat ≤ c.toNat ∧ c.toNat ≤ '9'.toNat)

/-- The number a run of decimal digits denotes. -/
def decimalValue (ds : List Char) : Nat := ds.foldl (fun n d => n * 10 + (d.toNat - 48)) 0

/-- The non-Absent value of an outcome: the `v` of `(v, nil)` with `v != nil`. -/
def Res.value? : Res (Option Plain) → Option Plain
  | .ok (some v) => some v
  | _ => none

/-- The scalar normalizer that `transformList` runs for the tag `t`, one of `N`, `BOOL`, `S`. -/
def normalizer (lib : GoLib) (t : String) (p : String) : Res (Option Plain) :=
  if t = "N" then transformNumber lib p
  else if t = "BOOL" then transformBool lib p
  else transformString lib p

/-- An entry on which the assertion `val.(string)` of `transformList` fails: its key is
exactly `N`, `BOOL` or `S` and its value is not a string. -/
def badEntry (e : String × JSON) : Bool :=
  decide (e.1 = "N" ∨ e.1 = "BOOL" ∨ e.1 = "S") && !e.2.isString

/-- An array element that is an object with such an entry. -/
def badElement : JSON → Bool
  | .obj kvs => kvs.any badEntry
  | _ => false

/-- The value one entry of an array element yields: the non-Absent result of the normalizer
that matches its key, when the key is exactly `N`, `BOOL` or `S` and the payload a string. -/
def entryValue? (lib : GoLib) (e : String × JSON) : Option Plain :=
  if e.1 = "N" ∨ e.1 = "BOOL" ∨ e.1 = "S" then
    match e.2 with
    | .str s => (normalizer lib e.1 s).value?
    | _ => none
  else none

/-- The values an array element yields, in the order its entries are visited. -/
def elementValues (lib : GoLib) : JSON → List Plain
  | .obj kvs => kvs.filterMap (entryValue? lib)
  | _ => []

/-- The values the elements of an array yield, in order. -/
def survivors (lib : GoLib) : List JSON → List Plain
  | [] => []
  | x :: xs => elementValues lib x ++ survivors lib xs

mutual
/-- No array in the value has an element on which `transformList` panics. Arrays inside an
array are not looked at: list decoding does not enter its elements. -/
def JSON.panicFree : JSON → Bool
  | .arr xs => xs.all (fun x => !badElement x)
  | .obj kvs => panicFreeEntries kvs
  | _ => true
termination_by structural x => x
/-- Every value of the entries is panic-free. -/
def panicFreeEntries : List (String × JSON) → Bool
  | [] => true
  | (_, v) :: rest => v.panicFree && panicFreeEntries rest
termination_by structural x => x
end

/-- The single-key object `{t: p}` with a string payload. -/
def tagged (t : String) (p : String) : JSON := .obj [(t, .str p)]

/-- The float64 `1`, as `json.Unmarshal` stores the JSON number `1`. -/
def one : Float64 := ⟨0x3FF0000000000000⟩

/-- A library for the concrete runs below: it parses no float except a run of at most 18
decimal digits, knows no timestamp and lowers no rune above U+007F. -/
def digitsLib : GoLib where
  parseFloat s :=
    match parseDigits s.data with
    | some n => if s.length ≤ 18 then some ⟨n⟩ else none
    | none => none
  parseRFC3339 _ := none
  unicodeToLower c := c


/-- The element contributes nothing to list decoding by its shape: it is no object, or an object
none of whose keys is exactly `N`, `BOOL` or `S`. -/
def skipped : JSON → Bool
  | .obj kvs => kvs.all (fun e => !decide (e.1 = "N" ∨ e.1 = "BOOL" ∨ e.1 = "S"))
  | _ => true

/-! ## Timestamps: the grammar of RFC 3339 and the reading of Go's `time.Parse` -/

/-- A leap year of the Gregorian calendar. -/
def leapYear (y : Nat) : Bool := (y % 4 = 0 && y % 100 != 0) || y % 400 = 0

/-- The number of days of month `m` (1 to 12) of year `y`. -/
def daysIn (y m : Nat) : Nat :=
  if m = 2 then (if leapYear y then 29 else 28)
  else if m = 4 ∨ m = 6 ∨ m = 9 ∨ m = 11 then 30
  else 31

/-- The days from 0000-01-01 to the first day of year `y`. -/
def daysBeforeYear (y : Nat) : Nat := 365 * y + (y + 3) / 4 - (y + 99) / 100 + (y + 399) / 400

/-- The days from the first day of year `y` to the first day of its month `m`. -/
def daysBeforeMonth (y m : Nat) : Nat := ((List.range (m - 1)).map (fun i => daysIn y (i + 1))).sum

/-- The Unix time of the civil time `y-mo-d h:mi:s` in the zone `offset` seconds east of UTC
(1970-01-01 is day 719528 from 0000-01-01). -/
def unixSeconds (y mo d h mi s : Nat) (offset : Int) : Int :=
  (((daysBeforeYear y + daysBeforeMonth y mo + (d - 1) : Nat) : Int) - 719528) * 86400 +
    ((h * 3600 + mi * 60 + s : Nat) : Int) - offset

/-- The number written by the first `n` characters of the text, when it has `n` and they are
decimal digits, with the text after them. -/
def takeNumber (n : Nat) (cs : List Char) : Option (Nat × List Char) :=
  if n ≤ cs.length then
    match parseDigits (cs.take n) with
    | some v => some (v, cs.drop n)
    | none => none
  else none

/-- The text after its first character, when that character is `c`. -/
def takeChar (c : Char) : List Char → Option (List Char)
  | d :: rest => if d = c then some rest else none
  | [] => none

/-- The text without a fraction of seconds at its start: one of the separators `seps` and the
digits after it, at least one. -/
def skipFraction (seps : List Char) : List Char → List Char
  | c :: d :: rest => if c ∈ seps ∧ isDigit d = true then rest.dropWhile isDigit else c :: d :: rest
  | cs => cs

/-- The zone that ends a timestamp, in seconds east of UTC: one of the letters `zulu`, or a sign,
two digits of hours up to `maxHour`, a colon and two digits of minutes up to `maxMinute`. -/
def readZone (zulu : List Char) (maxHour maxMinute : Nat) : List Char → Option Int
  | [z] => if z ∈ zulu then some 0 else none
  | [sign, h1, h2, ':', m1, m2] =>
    match parseDigits [h1, h2], parseDigits [m1, m2] with
    | some hh, some mm =>
      if hh ≤ maxHour ∧ mm ≤ maxMinute then
        (if sign = '+' then some (((hh * 60 + mm) * 60 : Nat) : Int)
         else if sign = '-' then some (-(((hh * 60 + mm) * 60 : Nat) : Int))
         else none)
      else none
    | _, _ => none
  | _ => none

/-- The second `60` of a timestamp is a leap second: in UTC the time is 23:59:60 on the last day
of a month (`offset` is the zone in seconds east of UTC; which months ended with a leap second is
a matter of the IERS bulletins and is not looked at). -/
def leapSecondAllowed (y mo d h mi : Nat) (offset : Int) : Bool :=
  let minutes : Int := ((h * 60 + mi : Nat) : Int) - offset / 60 + 1440
  decide (minutes % 1440 = 1439) &&
    (if minutes / 1440 = 1 then decide (d = daysIn y mo)
     else if minutes / 1440 = 0 then decide (d = 1)
     else decide (d + 1 = daysIn y mo))

/-- The date `YYYY-MM-DD` at the start of the text, as year, month and day, with the text after
it. -/
def readDate (cs : List Char) : Option ((Nat × Nat × Nat) × List Char) :=
  (takeNumber 4 cs).bind fun y =>
  (takeChar '-' y.2).bind fun r =>
  (takeNumber 2 r).bind fun mo =>
  (takeChar '-' mo.2).bind fun r =>
  (takeNumber 2 r).bind fun d =>
  some ((y.1, mo.1, d.1), d.2)

/-- The minutes and seconds `:mm:ss` at the start of the text, with the text after them. -/
def readMinuteSecond (cs : List Char) : Option ((Nat × Nat) × List Char) :=
  (takeChar ':' cs).bind fun r =>
  (takeNumber 2 r).bind fun mi =>
  (takeChar ':' mi.2).bind fun r =>
  (takeNumber 2 r).bind fun sec =>
  some ((mi.1, sec.1), sec.2)

/-- A valid RFC 3339 timestamp: the `date-time` of RFC 3339, section 5.6,
`YYYY-MM-DD`, `T` or `t`, `hh:mm:ss`, an optional fraction `.d…`, and `Z`, `z` or an offset
`+hh:mm` or `-hh:mm`, with the ranges of section 5.7: month 01 to 12, day 01 to the length of the
month, hour 00 to 23, minute 00 to 59, second 00 to 59, or 60 for a leap second. -/
def rfc3339Valid (s : String) : Bool :=
  match readDate s.data with
  | none => false
  | some ((y, mo, d), r) =>
    match (takeChar 'T' r).orElse (fun _ => takeChar 't' r) with
    | none => false
    | some r =>
      match takeNumber 2 r with
      | none => false
      | some (h, r) =>
        match readMinuteSecond r with
        | none => false
        | some ((mi, sec), r) =>
          match readZone ['Z', 'z'] 23 59 (skipFraction ['.'] r) with
          | none => false
          | some offset =>
            decide (1 ≤ mo ∧ mo ≤ 12 ∧ 1 ≤ d ∧ d ≤ daysIn y mo ∧ h ≤ 23 ∧ mi ≤ 59) &&
              (decide (sec ≤ 59) || (decide (sec = 60) && leapSecondAllowed y mo d h mi offset))

/-- The reading of `time.Parse(time.RFC3339, s)` followed by `Unix()`: the layout
`2006-01-02T15:04:05Z07:00` as Go's parser matches it. The year has four digits, month, day,
minute and second two, the hour one or two; `T` and `Z` are upper case; a fraction of seconds
after `.` or `,` is read and dropped; the second is at most 59, the offset at most `24:60`; the
day must exist in the month. `none` when Go returns an error. -/
def goTimeUnix (s : String) : Option Int :=
  match readDate s.data with
  | none => none
  | some ((y, mo, d), r) =>
    match takeChar 'T' r with
    | none => none
    | some r =>
      match (takeNumber 2 r).orElse (fun _ => takeNumber 1 r) with
      | none => none
      | some (h, r) =>
        match readMinuteSecond r with
        | none => none
        | some ((mi, sec), r) =>
          match readZone ['Z'] 24 60 (skipFraction ['.', ','] r) with
          | none => none
          | some offset =>
            if 1 ≤ mo ∧ mo ≤ 12 ∧ 1 ≤ d ∧ d ≤ daysIn y mo ∧ h ≤ 23 ∧ mi ≤ 59 ∧ sec ≤ 59 then
              some (unixSeconds y mo d h mi sec offset)
            else none

/-- A library for concrete runs on timestamps: it reads them as Go's `time.Parse` does and is
`digitsLib` otherwise. -/
def goTimeLib : GoLib where
  parseFloat := digitsLib.parseFloat
  parseRFC3339 := goTimeUnix
  unicodeToLower c := c

/-- The number of entries of an array element that are keyed exactly `N`, `BOOL` or `S`. -/
def tagCount : JSON → Nat
  | .obj kvs => (kvs.filter (fun e => decide (e.1 = "N" ∨ e.1 = "BOOL" ∨ e.1 = "S"))).length
  | _ => 0

/-- The value is a string, an integer, a float or a boolean. -/
def Plain.isScalar : Plain → Bool
  | .str _ => true
  | .int _ => true
  | .int64 _ => true
  | .float _ => true
  | .bool _ => true
  | .list _ => false
  | .map _ => false

mutual
/-- The shape of a decoded value: a list in it is non-empty and holds scalars only, and a key
of a map in it, at any depth, is non-empty and is its own whitespace-trim. A `Plain` holds no
nil: the code stores a value only behind its `!= nil` test. -/
def Plain.wellFormed : Plain → Bool
  | .list xs => !xs.isEmpty && xs.all Plain.isScalar
  | .map m => wellFormedEntries m
  | _ => true
termination_by structural x => x
/-- The shape of the entries of a decoded map. -/
def wellFormedEntries : List (String × Plain) → Bool
  | [] => true
  | (k, v) :: rest =>
    decide (k ≠ "") && decide (trimSpace k = k) && v.wellFormed && wellFormedEntries rest
termination_by structural x => x
end

/-! ## Visiting orders -/

/-- One round of the loop of `transformMap`, on the outcome of the rounds before it. -/
def mapStep (lib : GoLib) (r : Res GoMap) (e : String × JSON) : Res GoMap :=
  match r with
  | .ok transformed =>
    if trimSpace e.1 = "" then .ok transformed
    else
      match handleIfMap lib (trimSpace e.1) e.2 with
      | some (.ok (some transformedValue)) =>
        .ok (GoMap.set transformed (trimSpace e.1) transformedValue)
      | some .panic => .panic
      | _ => .ok transformed
  | .fail msg => .fail msg
  | .panic => .panic

mutual
/-- The document `j'` is the document `j` read with other visiting orders: the entries of each
object of `j`, at every depth, come in `j'` in some order, with values that are again related in
this way; arrays keep their order. -/
def JSON.reorders : JSON → JSON → Prop
  | .null, j' => j' = .null
  | .bool b, j' => j' = .bool b
  | .num f, j' => j' = .num f
  | .str s, j' => j' = .str s
  | .arr xs, j' => ∃ ys, j' = .arr ys ∧ reordersList xs ys
  | .obj kvs, j' => ∃ kvs1 kvs', j' = .obj kvs' ∧ reordersEntries kvs kvs1 ∧ kvs1.Perm kvs'
termination_by structural x => x
/-- The elements of two arrays are related one by one. -/
def reordersList : List JSON → List JSON → Prop
  | [], ys => ys = []
  | x :: xs, ys => ∃ y ys', ys = y :: ys' ∧ x.reorders y ∧ reordersList xs ys'
termination_by structural x => x
/-- The entries of two objects have the same keys, in the same order, and related values. -/
def reordersEntries : List (String × JSON) → List (String × JSON) → Prop
  | [], kvs' => kvs' = []
  | (k, v) :: rest, kvs' =>
    ∃ v' rest', kvs' = (k, v') :: rest' ∧ v.reorders v' ∧ reordersEntries rest rest'
termination_by structural x => x
end

/-- The key trims to one of the six type tags. -/
def isTypeTag (k : String) : Bool :=
  decide (trimSpace k = "S" ∨ trimSpace k = "N" ∨ trimSpace k = "BOOL" ∨ trimSpace k = "NULL" ∨
    trimSpace k = "L" ∨ trimSpace k = "M")

/-- No two keys of the entries share a non-empty trimmed form. -/
def noKeyClash (kvs : List (String × JSON)) : Prop :=
  kvs.Pairwise (fun a b => trimSpace a.1 = trimSpace b.1 → trimSpace a.1 = "")

/-- In an array that is decoded as a list, no element carries two of the tags `N`, `BOOL`,
`S`. -/
def JSON.choiceFreeArr : JSON → Prop
  | .arr xs => ∀ x ∈ xs, tagCount x ≤ 1
  | _ => True

mutual
/-- The entries of an object decoded as a map: the value of every entry that is not skipped for
its key offers no choice. -/
def choiceFreeEntries : List (String × JSON) → Prop
  | [] => True
  | (k, v) :: rest => (trimSpace k ≠ "" → v.choiceFreeTagged) ∧ choiceFreeEntries rest
termination_by structural x => x
/-- A tagged value (the value of a map entry, when it is an object): at most one of its keys
trims to a type tag, and its payloads offer no choice. -/
def JSON.choiceFreeTagged : JSON → Prop
  | .obj tv => (tv.filter (fun e => isTypeTag e.1)).length ≤ 1 ∧ choiceFreePayloads tv
  | _ => True
termination_by structural x => x
/-- The payloads of a tagged value: the one under `M` as a map, the one under `L` as a list. -/
def choiceFreePayloads : List (String × JSON) → Prop
  | [] => True
  | (t, p) :: rest =>
    (trimSpace t = "M" → p.choiceFreeMap) ∧ (trimSpace t = "L" → p.choiceFreeArr) ∧
      choiceFreePayloads rest
termination_by structural x => x
/-- An object decoded as a map: no two of its keys share a non-empty trimmed form, and its
entries offer no choice. -/
def JSON.choiceFreeMap : JSON → Prop
  | .obj m => noKeyClash m ∧ choiceFreeEntries m
  | _ => True
termination_by structural x => x
end

/-- A document that offers no choice to the visiting order, as the root that `TransformJSON`
decodes. -/
def JSON.choiceFree (j : JSON) : Prop := j.choiceFreeMap ∧ j.choiceFreeArr

/-- In an array that is decoded as a list, every element that is an object has a single key. -/
def JSON.singleKeyArr : JSON → Prop
  | .arr xs => ∀ x ∈ xs, ∀ kvs, x = .obj kvs → kvs.length = 1
  | _ => True

mutual
/-- The entries of an object decoded as a map: every value that is dispatched is a well-formed
tagged value. -/
def singleKeyEntries : List (String × JSON) → Prop
  | [] => True
  | (k, v) :: rest => (trimSpace k ≠ "" → v.singleKeyTagged) ∧ singleKeyEntries rest
termination_by structural x => x
/-- A tagged value is a single-key object with a well-formed payload. -/
def JSON.singleKeyTagged : JSON → Prop
  | .obj tv => tv.length = 1 ∧ singleKeyPayloads tv
  | _ => True
termination_by structural x => x
/-- The payloads of a tagged value: the one under `M` as a map, the one under `L` as a list. -/
def singleKeyPayloads : List (String × JSON) → Prop
  | [] => True
  | (t, p) :: rest =>
    (trimSpace t = "M" → p.singleKeyMap) ∧ (trimSpace t = "L" → p.singleKeyArr) ∧
      singleKeyPayloads rest
termination_by structural x => x
/-- An object decoded as a map: its keys have pairwise distinct trimmed forms and its entries
are well-formed. -/
def JSON.singleKeyMap : JSON → Prop
  | .obj m => m.Pairwise (fun a b => trimSpace a.1 ≠ trimSpace b.1) ∧ singleKeyEntries m
  | _ => True
termination_by structural x => x
end

/-- A well-formed input: every tagged value and every list element is a single-key object and
the keys of every object decoded as a map have pairwise distinct trimmed forms. -/
def JSON.singleKeyed (j : JSON) : Prop := j.singleKeyMap ∧ j.singleKeyArr

/-! ## Basic facts -/

theorem transformNull_eq (lib : GoLib) (s : String) : transformNull lib s = .ok none := by
  unfold transformNull
  simp

theorem transformString_ok (lib : GoLib) (s : String) : ∃ o, transformString lib s = .ok o := by
  unfold transformString
  simp only
  split
  · exact ⟨_, rfl⟩
  · split <;> exact ⟨_, rfl⟩

theorem transformNumber_ok (lib : GoLib) (s : String) : ∃ o, transformNumber lib s = .ok o := by
  unfold transformNumber
  simp only
  split
  · exact ⟨_, rfl⟩
  · split
    · exact ⟨_, rfl⟩
    · split <;> exact ⟨_, rfl⟩

theorem transformBool_ok (lib : GoLib) (s : String) : ∃ o, transformBool lib s = .ok o := by
  unfold transformBool
  simp only
  split
  · exact ⟨_, rfl⟩
  · split <;> exact ⟨_, rfl⟩

theorem handleDataTypes_bool (lib : GoLib) (s : String) :
    (match transformBool lib s with
      | .ok (some transformedBool) => Res.ok (some transformedBool)
      | .ok none => .ok none
      | .fail _ => .ok none
      | .panic => .panic) = transformBool lib s := by
  obtain ⟨o, ho⟩ := transformBool_ok lib s
  rw [ho]
  cases o <;> rfl

theorem handleDataTypes_null (lib : GoLib) (s : String) :
    (match transformNull lib s with
      | .ok none => Res.ok none
      | r => r) = transformNull lib s := by
  rw [transformNull_eq]

theorem parseDigits_foldl (ds : List Char) (h : ∀ c ∈ ds, isDigit c = true) (acc : Nat) :
    ds.foldl
      (fun acc d =>
        match acc with
        | some n =>
          if '0'.toNat ≤ d.toNat ∧ d.toNat ≤ '9'.toNat then some (n * 10 + (d.toNat - 48)) else none
        | none => none)
      (some acc) = some (ds.foldl (fun n d => n * 10 + (d.toNat - 48)) acc) := by
  induction ds generalizing acc with
  | nil => rfl
  | cons d ds ih =>
    have hd : '0'.toNat ≤ d.toNat ∧ d.toNat ≤ '9'.toNat := by
      have := h d (List.mem_cons_self _ _)
      simpa [isDigit] using this
    simp only [List.foldl_cons, hd, and_self, if_true]
    exact ih (fun c hc => h c (List.mem_cons_of_mem _ hc)) _

theorem parseDigits_eq (ds : List Char) (hne : ds ≠ []) (h : ∀ c ∈ ds, isDigit c = true) :
    parseDigits ds = some (decimalValue ds) := by
  cases ds with
  | nil => exact absurd rfl hne
  | cons d ds => exact parseDigits_foldl (d :: ds) h 0

theorem decimalValue_dropZeros (ds : List Char) :
    decimalValue (ds.dropWhile (fun c => decide (c = '0'))) = decimalValue ds := by
  induction ds with
  | nil => rfl
  | cons d ds ih =>
    by_cases hd : d = '0'
    · subst hd
      simp only [List.dropWhile_cons, decide_True, if_true]
      rw [ih]
      rfl
    · simp [List.dropWhile_cons, hd]

theorem dropZeros_head (ds : List Char) (hnz : ∃ c ∈ ds, c ≠ '0') :
    ∃ d rest, ds.dropWhile (fun c => decide (c = '0')) = d :: rest ∧ d ≠ '0' := by
  induction ds with
  | nil => obtain ⟨c, hc, _⟩ := hnz; cases hc
  | cons d ds ih =>
    by_cases hd : d = '0'
    · subst hd
      obtain ⟨c, hc, hc0⟩ := hnz
      have hc2 : c ∈ ds := by
        rcases List.mem_cons.mp hc with h | h
        · exact absurd h hc0
        · exact h
      obtain ⟨d, rest, e, hd⟩ := ih ⟨c, hc2, hc0⟩
      exact ⟨d, rest, by simp [List.dropWhile_cons, e], hd⟩
    · exact ⟨d, ds, by simp [List.dropWhile_cons, hd], hd⟩

theorem atoi_digits (s : String) (h : ∀ c ∈ s.data, isDigit c = true) (hne : s.data ≠ [])
    (hfit : decimalValue s.data < 2 ^ 63) : atoi s = some (decimalValue s.data : Int) := by
  unfold atoi
  have hp := parseDigits_eq s.data hne h
  cases hs : s.data with
  | nil => exact absurd hs hne
  | cons d ds =>
    have hd : '0'.toNat ≤ d.toNat ∧ d.toNat ≤ '9'.toNat := by
      have := h d (by rw [hs]; exact List.mem_cons_self _ _)
      simpa [isDigit] using this
    have h1 : d ≠ '-' := by
      rintro rfl
      revert hd
      decide
    have h2 : d ≠ '+' := by
      rintro rfl
      revert hd
      decide
    rw [hs] at hp hfit
    split
    · next ds2 heq => cases heq; exact absurd rfl h1
    · next ds2 heq => cases heq; exact absurd rfl h2
    · simp only [hp, hfit, if_true]

/-- A run of digits, not all zero, within the range of `int`, is decoded to its value. -/
theorem transformNumber_digits (lib : GoLib) (s : String)
    (hdig : ∀ c ∈ (trimSpace s).data, isDigit c = true)
    (hnz : ∃ c ∈ (trimSpace s).data, c ≠ '0')
    (hfit : decimalValue (trimSpace s).data < 2 ^ 63)
    (hlib : ∃ f, lib.parseFloat (trimLeftZeros (trimSpace s)) = some f) :
    transformNumber lib s = .ok (some (.int (decimalValue (trimSpace s).data))) := by
  obtain ⟨f, hf⟩ := hlib
  obtain ⟨d, rest, hdrop, hd0⟩ := dropZeros_head _ hnz
  have hdata : (trimLeftZeros (trimSpace s)).data = d :: rest := hdrop
  have hnonempty : trimLeftZeros (trimSpace s) ≠ "" := by
    intro h
    rw [h] at hdata
    cases hdata
  have hval : decimalValue (trimLeftZeros (trimSpace s)).data = decimalValue (trimSpace s).data :=
    decimalValue_dropZeros _
  have hdig2 : ∀ c ∈ (trimLeftZeros (trimSpace s)).data, isDigit c = true := by
    intro c hc
    exact hdig c ((List.dropWhile_sublist _).subset hc)
  have ha := atoi_digits (trimLeftZeros (trimSpace s)) hdig2 (by rw [hdata]; simp)
    (by rw [hval]; exact hfit)
  unfold transformNumber isValidNumber
  simp only [hnonempty, hf, Option.isSome_some, ha, hval]
  simp

/-! ## List decoding -/

theorem normalizer_ok (lib : GoLib) (t p : String) : ∃ o, normalizer lib t p = .ok o := by
  unfold normalizer
  split
  · exact transformNumber_ok lib p
  · split
    · exact transformBool_ok lib p
    · exact transformString_ok lib p

theorem transformListItem_tagged (lib : GoLib) (t p : String)
    (ht : t = "N" ∨ t = "BOOL" ∨ t = "S") (list : List Plain) :
    transformListItem lib [(t, .str p)] list =
      .ok (list ++ ((normalizer lib t p).value?).toList) := by
  obtain ⟨o, ho⟩ := normalizer_ok lib t p
  rcases ht with h | h | h <;> subst h <;>
    simp only [normalizer, if_true, if_false, String.reduceEq] at ho <;>
    simp only [transformListItem, normalizer, if_true, if_false, String.reduceEq, ho] <;>
    cases o <;> simp [appendIfValue, Res.value?, transformListItem]

/-- On single-key elements tagged `N`, `BOOL` or `S` the loop appends the non-Absent results. -/
theorem transformListLoop_tagged (lib : GoLib) (tps : List (String × String))
    (h : ∀ tp ∈ tps, tp.1 = "N" ∨ tp.1 = "BOOL" ∨ tp.1 = "S") (list : List Plain) :
    transformListLoop lib (tps.map (fun tp => tagged tp.1 tp.2)) list =
      .ok (list ++ tps.filterMap (fun tp => (normalizer lib tp.1 tp.2).value?)) := by
  simp only [tagged]
  induction tps generalizing list with
  | nil => simp [transformListLoop]
  | cons tp tps ih =>
    have h1 := transformListItem_tagged lib tp.1 tp.2 (h tp (List.mem_cons_self _ _)) list
    simp only [List.map_cons, transformListLoop, h1]
    rw [ih (fun x hx => h x (List.mem_cons_of_mem _ hx))]
    cases hv : (normalizer lib tp.1 tp.2).value? <;> simp [List.filterMap_cons, hv]

theorem transformList_of_loop_ok (lib : GoLib) (input : List JSON) (list : List Plain)
    (h : transformListLoop lib input [] = .ok list) :
    (list = [] → transformList lib input = .fail "list is empty or contains no valid items") ∧
    (list ≠ [] → transformList lib input = .ok list) := by
  unfold transformList
  rw [h]
  dsimp only
  constructor
  · intro hl
    simp [hl]
  · intro hl
    have : list.length ≠ 0 := by simpa [List.length_eq_zero] using hl
    simp only [this, if_false]

theorem transformList_panic_of_number (lib : GoLib) (t : String)
    (ht : t = "N" ∨ t = "BOOL" ∨ t = "S") (f : Float64) (rest : List (String × JSON))
    (more : List JSON) : transformList lib (.obj ((t, .num f) :: rest) :: more) = .panic := by
  rcases ht with h | h | h <;> subst h <;>
    simp [transformList, transformListLoop, transformListItem]

/-! ## Map decoding -/

theorem GoMap.keys_set (m : GoMap) (k : String) (v : Plain) (x : String)
    (hx : x ∈ (GoMap.set m k v).keys) : x = k ∨ x ∈ m.keys := by
  induction m with
  | nil => simpa [GoMap.set, GoMap.keys] using hx
  | cons e m ih =>
    obtain ⟨k', v'⟩ := e
    simp only [GoMap.set] at hx
    split at hx
    · next h =>
      subst h
      simp only [GoMap.keys, List.map_cons, List.mem_cons] at hx ⊢
      rcases hx with h | h
      · exact Or.inl h
      · exact Or.inr (Or.inr h)
    · split at hx
      · simp only [GoMap.keys, List.map_cons, List.mem_cons] at hx ⊢
        exact hx
      · simp only [GoMap.keys, List.map_cons, List.mem_cons] at hx ⊢
        rcases hx with h | h
        · exact Or.inr (Or.inl h)
        · rcases ih h with h2 | h2
          · exact Or.inl h2
          · exact Or.inr (Or.inr h2)

theorem GoMap.get_set_self (m : GoMap) (k : String) (v : Plain) :
    GoMap.get (GoMap.set m k v) k = some v := by
  induction m with
  | nil => simp [GoMap.set, GoMap.get]
  | cons e m ih =>
    obtain ⟨k', v'⟩ := e
    simp only [GoMap.set]
    split
    · simp [GoMap.get]
    · next hne =>
      split
      · simp [GoMap.get]
      · simp [GoMap.get, hne, ih]

theorem GoMap.get_set_other (m : GoMap) (k : String) (v : Plain) (x : String) (hx : x ≠ k) :
    GoMap.get (GoMap.set m k v) x = GoMap.get m x := by
  induction m with
  | nil => simp [GoMap.set, GoMap.get, hx]
  | cons e m ih =>
    obtain ⟨k', v'⟩ := e
    simp only [GoMap.set]
    split
    · next h =>
      subst h
      simp [GoMap.get, hx]
    · split
      · simp [GoMap.get, hx]
      · simp [GoMap.get, ih]

/-- An entry whose key trims to the empty string leaves no trace. -/
theorem transformMapLoop_skip (lib : GoLib) (pre post : List (String × JSON)) (key : String)
    (value : JSON) (hk : trimSpace key = "") (acc : GoMap) :
    transformMapLoop lib (pre ++ (key, value) :: post) acc =
      transformMapLoop lib (pre ++ post) acc := by
  induction pre generalizing acc with
  | nil => simp [transformMapLoop, hk]
  | cons e pre ih =>
    obtain ⟨k, v⟩ := e
    show transformMapLoop lib ((k, v) :: (pre ++ (key, value) :: post)) acc =
      transformMapLoop lib ((k, v) :: (pre ++ post)) acc
    simp only [transformMapLoop, ih]

/-- Every key of the map returned was in the map at the start or is the non-empty trimmed key of
an entry. -/
theorem transformMapLoop_keys (lib : GoLib) (input : List (String × JSON)) (acc m : GoMap)
    (h : transformMapLoop lib input acc = .ok m) (k : String) (hk : k ∈ m.keys) :
    k ∈ acc.keys ∨ (k ≠ "" ∧ ∃ e ∈ input, k = trimSpace e.1) := by
  induction input generalizing acc with
  | nil =>
    simp only [transformMapLoop] at h
    cases h
    exact Or.inl hk
  | cons e input ih =>
    obtain ⟨key, value⟩ := e
    have lift : ∀ acc2, transformMapLoop lib input acc2 = .ok m →
        (∀ x ∈ acc2.keys, x ∈ acc.keys ∨ (x = trimSpace key ∧ trimSpace key ≠ "")) →
        k ∈ acc.keys ∨ (k ≠ "" ∧ ∃ e ∈ (key, value) :: input, k = trimSpace e.1) := by
      intro acc2 h2 hsub
      rcases ih acc2 h2 with h3 | ⟨h3, e, he, hek⟩
      · rcases hsub k h3 with h4 | ⟨h4, h5⟩
        · exact Or.inl h4
        · exact Or.inr ⟨h4 ▸ h5, (key, value), List.mem_cons_self _ _, h4⟩
      · exact Or.inr ⟨h3, e, List.mem_cons_of_mem _ he, hek⟩
    simp only [transformMapLoop] at h
    split at h
    · exact lift acc h (fun x hx => Or.inl hx)
    · next hne =>
      split at h
      · refine lift _ h (fun x hx => ?_)
        rcases GoMap.keys_set _ _ _ _ hx with h6 | h6
        · exact Or.inr ⟨h6, hne⟩
        · exact Or.inl h6
      · exact lift acc h (fun x hx => Or.inl hx)
      · exact lift acc h (fun x hx => Or.inl hx)
      · cases h
      · exact lift acc h (fun x hx => Or.inl hx)

theorem perm_three {α : Type} (a b c : α) (l : List α) (h : l.Perm [a, b, c]) :
    l = [a, b, c] ∨ l = [a, c, b] ∨ l = [b, a, c] ∨ l = [b, c, a] ∨ l = [c, a, b] ∨
      l = [c, b, a] := by
  have h2 := List.mem_permutations.mpr h
  simp [List.permutations, List.permutationsAux_cons, List.permutationsAux_nil,
    List.permutationsAux2] at h2
  tauto

theorem handleIfMap_tagged_S (lib : GoLib) (p key : String) :
    handleIfMap lib key (tagged "S" p) = some (transformString lib p) := by
  have e : trimSpace "S" = "S" := rfl
  simp [handleIfMap, tagged, handleDataTypes, e]

theorem handleIfMap_tagged_N (lib : GoLib) (p key : String) :
    handleIfMap lib key (tagged "N" p) = some (transformNumber lib p) := by
  have e : trimSpace "N" = "N" := rfl
  simp [handleIfMap, tagged, handleDataTypes, e]

/-- The loop does not touch a key that is the trimmed key of no entry. -/
theorem transformMapLoop_get_untouched (lib : GoLib) (input : List (String × JSON)) (k0 : String)
    (h : ∀ e ∈ input, trimSpace e.1 ≠ k0) (acc m : GoMap)
    (hm : transformMapLoop lib input acc = .ok m) : GoMap.get m k0 = GoMap.get acc k0 := by
  induction input generalizing acc with
  | nil =>
    simp only [transformMapLoop] at hm
    cases hm
    rfl
  | cons e input ih =>
    obtain ⟨key, value⟩ := e
    have hk : trimSpace key ≠ k0 := h (key, value) (List.mem_cons_self _ _)
    have ih2 := ih (fun e he => h e (List.mem_cons_of_mem _ he))
    simp only [transformMapLoop] at hm
    split at hm
    · exact ih2 acc hm
    · split at hm
      · rw [ih2 _ hm]
        exact GoMap.get_set_other _ _ _ _ (Ne.symm hk)
      · exact ih2 acc hm
      · exact ih2 acc hm
      · cases hm
      · exact ih2 acc hm

/-- A run of the loop that returns splits at any point of the input. -/
theorem transformMapLoop_append (lib : GoLib) (pre post : List (String × JSON)) (acc m : GoMap)
    (hm : transformMapLoop lib (pre ++ post) acc = .ok m) :
    ∃ mid, transformMapLoop lib pre acc = .ok mid ∧ transformMapLoop lib post mid = .ok m := by
  induction pre generalizing acc with
  | nil => exact ⟨acc, by simp [transformMapLoop], hm⟩
  | cons e pre ih =>
    obtain ⟨key, value⟩ := e
    have hm2 : transformMapLoop lib ((key, value) :: (pre ++ post)) acc = .ok m := hm
    simp only [transformMapLoop] at hm2 ⊢
    split at hm2
    · next h0 => simpa only [h0, if_true] using ih acc hm2
    · next h0 =>
      simp only [h0, if_false]
      split at hm2
      · next heq => simpa only [heq] using ih _ hm2
      · next heq => simpa only [heq] using ih _ hm2
      · next heq => simpa only [heq] using ih _ hm2
      · cases hm2
      · next heq => simpa only [heq] using ih _ hm2

/-- In a map that `transformMap` returns, the value under the trimmed key of an entry that
shares it with no other is the non-nil result of the dispatch of that entry, if there is one. -/
theorem transformMap_get_of_ok (lib : GoLib) (pre post : List (String × JSON)) (k : String)
    (v : JSON) (m : GoMap) (hm : transformMap lib (pre ++ (k, v) :: post) = .ok m)
    (hk : trimSpace k ≠ "") (huniq : ∀ e ∈ pre ++ post, trimSpace e.1 ≠ trimSpace k) :
    (∀ tv, v = .obj tv → GoMap.get m (trimSpace k) = (handleDataTypes lib (trimSpace k) tv).value?) ∧
    (v.isObject = false → GoMap.get m (trimSpace k) = none) := by
  obtain ⟨mid, h1, h2⟩ := transformMapLoop_append lib pre ((k, v) :: post) [] m hm
  have hpre : GoMap.get mid (trimSpace k) = none := by
    rw [transformMapLoop_get_untouched lib pre (trimSpace k)
      (fun e he => huniq e (List.mem_append_left _ he)) [] mid h1]
    rfl
  have hpost := transformMapLoop_get_untouched lib post (trimSpace k)
    (fun e he => huniq e (List.mem_append_right _ he))
  simp only [transformMapLoop, hk, if_false] at h2
  constructor
  · intro tv hv
    subst hv
    simp only [handleIfMap] at h2
    cases hr : handleDataTypes lib (trimSpace k) tv with
    | ok o =>
      rw [hr] at h2
      cases o with
      | none => simpa [Res.value?, hpre] using hpost _ _ h2
      | some r =>
        rw [hpost _ _ h2]
        simpa [Res.value?] using GoMap.get_set_self mid (trimSpace k) r
    | fail msg =>
      rw [hr] at h2
      simpa [Res.value?, hpre] using hpost _ _ h2
    | panic =>
      rw [hr] at h2
      cases h2
  · intro hv
    cases v <;> simp [JSON.isObject] at hv <;> simp only [handleIfMap] at h2 <;>
      simpa [hpre] using hpost _ _ h2

/-- The loop of `transformMap` never returns an error. -/
theorem transformMapLoop_ne_fail (lib : GoLib) (input : List (String × JSON)) (acc : GoMap)
    (msg : String) : transformMapLoop lib input acc ≠ .fail msg := by
  induction input generalizing acc with
  | nil => simp [transformMapLoop]
  | cons e input ih =>
    obtain ⟨key, value⟩ := e
    simp only [transformMapLoop]
    split
    · exact ih acc
    · split
      · exact ih _
      · exact ih acc
      · exact ih acc
      · simp
      · exact ih acc

/-- An entry whose dispatch fails leaves no trace. -/
theorem transformMapLoop_drop_failed (lib : GoLib) (pre post : List (String × JSON))
    (key : String) (tv : List (String × JSON)) (msg : String)
    (hf : handleDataTypes lib (trimSpace key) tv = .fail msg) (acc : GoMap) :
    transformMapLoop lib (pre ++ (key, .obj tv) :: post) acc =
      transformMapLoop lib (pre ++ post) acc := by
  induction pre generalizing acc with
  | nil => simp [transformMapLoop, handleIfMap, hf]
  | cons e pre ih =>
    obtain ⟨k, v⟩ := e
    show transformMapLoop lib ((k, v) :: (pre ++ (key, .obj tv) :: post)) acc =
      transformMapLoop lib ((k, v) :: (pre ++ post)) acc
    simp only [transformMapLoop, ih]

theorem handleIfMap_L (lib : GoLib) (list : List JSON) (key : String) :
    handleIfMap lib key (.obj [("L", .arr list)]) =
      some ((transformList lib list).map (fun l => some (.list l))) := by
  have e : trimSpace "L" = "L" := rfl
  simp [handleIfMap, handleDataTypes, e]

theorem transformMap_sibling_panic (lib : GoLib) (p : String) (f : Float64) :
    transformMap lib [("a", tagged "S" p), ("b", .obj [("L", .arr [.obj [("N", .num f)]])])] =
      .panic ∧
    transformMap lib [("b", .obj [("L", .arr [.obj [("N", .num f)]])]), ("a", tagged "S" p)] =
      .panic := by
  have tA : trimSpace "a" = "a" := rfl
  have tB : trimSpace "b" = "b" := rfl
  have hL := handleIfMap_L lib [.obj [("N", .num f)]] "b"
  rw [transformList_panic_of_number lib "N" (Or.inl rfl) f [] []] at hL
  have hS := handleIfMap_tagged_S lib p "a"
  obtain ⟨o, ho⟩ := transformString_ok lib p
  rw [ho] at hS
  constructor
  · cases o <;> simp [transformMap, transformMapLoop, tA, tB, hL, hS, Res.map]
  · simp [transformMap, transformMapLoop, tB, hL, Res.map]

/-- Without a bad entry, the inner loop appends the values of the entries. -/
theorem transformListItem_values (lib : GoLib) (kvs : List (String × JSON))
    (h : kvs.any badEntry = false) (list : List Plain) :
    transformListItem lib kvs list = .ok (list ++ kvs.filterMap (entryValue? lib)) := by
  induction kvs generalizing list with
  | nil => simp [transformListItem]
  | cons e kvs ih =>
    obtain ⟨key, val⟩ := e
    simp only [List.any_cons, Bool.or_eq_false_iff] at h
    obtain ⟨h1, h2⟩ := h
    have step : ∀ s, val = .str s → (key = "N" ∨ key = "BOOL" ∨ key = "S") →
        transformListItem lib ((key, val) :: kvs) list =
          transformListItem lib kvs (list ++ ((normalizer lib key s).value?).toList) := by
      intro s hs hk
      subst hs
      obtain ⟨o, ho⟩ := normalizer_ok lib key s
      rcases hk with hk | hk | hk <;> subst hk <;>
        simp only [normalizer, if_true, if_false, String.reduceEq] at ho <;>
        simp only [transformListItem, normalizer, if_true, if_false, String.reduceEq, ho] <;>
        cases o <;> simp [appendIfValue, Res.value?]
    by_cases hk : key = "N" ∨ key = "BOOL" ∨ key = "S"
    · cases val with
      | str s =>
        rw [step s rfl hk, ih h2]
        cases hv : (normalizer lib key s).value? <;>
          simp [List.filterMap_cons, entryValue?, hk, hv]
      | _ => simp [badEntry, hk, JSON.isString] at h1
    · have hk2 := hk
      simp only [not_or] at hk2
      obtain ⟨n1, n2, n3⟩ := hk2
      simp only [transformListItem, n1, n2, n3, if_false]
      rw [ih h2]
      simp [List.filterMap_cons, entryValue?, hk]

/-- With a bad entry, the inner loop panics. -/
theorem transformListItem_panic (lib : GoLib) (kvs : List (String × JSON))
    (h : kvs.any badEntry = true) (list : List Plain) :
    transformListItem lib kvs list = .panic := by
  induction kvs generalizing list with
  | nil => simp at h
  | cons e kvs ih =>
    obtain ⟨key, val⟩ := e
    by_cases hb : badEntry (key, val) = true
    · simp only [badEntry, Bool.and_eq_true, decide_eq_true_eq, Bool.not_eq_true'] at hb
      obtain ⟨hk, hv⟩ := hb
      cases val <;> simp [JSON.isString] at hv <;>
        rcases hk with hk | hk | hk <;> subst hk <;> simp [transformListItem]
    · simp only [List.any_cons, hb, Bool.false_or] at h
      have ih2 := ih h
      by_cases hk : key = "N" ∨ key = "BOOL" ∨ key = "S"
      · cases val with
        | str s =>
          obtain ⟨o, ho⟩ := normalizer_ok lib key s
          rcases hk with hk | hk | hk <;> subst hk <;>
            simp only [normalizer, if_true, if_false, String.reduceEq] at ho <;>
            simp only [transformListItem, if_true, if_false, String.reduceEq, ho] <;>
            cases o <;> simp [appendIfValue, ih2]
        | _ => simp [badEntry, hk, JSON.isString] at hb
      · simp only [not_or] at hk
        obtain ⟨n1, n2, n3⟩ := hk
        simp only [transformListItem, n1, n2, n3, if_false]
        exact ih2 list

theorem transformListLoop_values (lib : GoLib) (input : List JSON)
    (h : ∀ x ∈ input, badElement x = false) (list : List Plain) :
    transformListLoop lib input list = .ok (list ++ survivors lib input) := by
  induction input generalizing list with
  | nil => simp [transformListLoop, survivors]
  | cons x input ih =>
    have hx := h x (List.mem_cons_self _ _)
    have ih2 := ih (fun y hy => h y (List.mem_cons_of_mem _ hy))
    cases x with
    | obj kvs =>
      simp only [badElement] at hx
      simp only [transformListLoop, transformListItem_values lib kvs hx, ih2, survivors,
        elementValues, List.append_assoc]
    | _ => simp only [transformListLoop, ih2, survivors, elementValues, List.nil_append]

theorem transformListLoop_panic (lib : GoLib) (input : List JSON)
    (h : ∃ x ∈ input, badElement x = true) (list : List Plain) :
    transformListLoop lib input list = .panic := by
  induction input generalizing list with
  | nil => obtain ⟨x, hx, _⟩ := h; cases hx
  | cons x input ih =>
    by_cases hb : badElement x = true
    · cases x <;> simp [badElement] at hb
      next kvs =>
        have := transformListItem_panic lib kvs (by simpa using hb) list
        simp only [transformListLoop, this]
    · have h2 : ∃ y ∈ input, badElement y = true := by
        obtain ⟨y, hy, hyb⟩ := h
        rcases List.mem_cons.mp hy with e | e
        · subst e; exact absurd hyb hb
        · exact ⟨y, e, hyb⟩
      cases x with
      | obj kvs =>
        simp only [badElement] at hb
        have hv := transformListItem_values lib kvs (by simpa using hb) list
        simp only [transformListLoop, hv, ih h2]
      | _ => simp only [transformListLoop, ih h2]

/-- The function `transformList` panics exactly on an array with a bad element. -/
theorem transformList_panic_iff (lib : GoLib) (input : List JSON) :
    transformList lib input = .panic ↔ ∃ x ∈ input, badElement x = true := by
  constructor
  · intro h
    by_contra hn
    have hall : ∀ x ∈ input, badElement x = false := by
      intro x hx
      by_contra hb
      exact hn ⟨x, hx, by simpa using hb⟩
    have hl := transformListLoop_values lib input hall []
    unfold transformList at h
    rw [hl] at h
    dsimp only at h
    split at h <;> cases h
  · intro h
    unfold transformList
    rw [transformListLoop_panic lib input h []]

/-- On an array without a bad element `transformList` fails when nothing survives and returns
the survivors otherwise. -/
theorem transformList_of_no_bad (lib : GoLib) (input : List JSON)
    (h : ∀ x ∈ input, badElement x = false) :
    (survivors lib input = [] →
      transformList lib input = .fail "list is empty or contains no valid items") ∧
    (survivors lib input ≠ [] → transformList lib input = .ok (survivors lib input)) := by
  have hl := transformListLoop_values lib input h []
  simp only [List.nil_append] at hl
  exact transformList_of_loop_ok lib input _ hl

theorem survivors_eq_nil_iff (lib : GoLib) (input : List JSON) :
    survivors lib input = [] ↔ ∀ x ∈ input, elementValues lib x = [] := by
  induction input with
  | nil => simp [survivors]
  | cons x input ih => simp [survivors, ih]

theorem transformMapLoop_ok_of_no_panic (lib : GoLib) (input : List (String × JSON))
    (h : ∀ e ∈ input, handleIfMap lib (trimSpace e.1) e.2 ≠ some .panic) (acc : GoMap) :
    ∃ m, transformMapLoop lib input acc = .ok m := by
  induction input generalizing acc with
  | nil => exact ⟨acc, by simp [transformMapLoop]⟩
  | cons e input ih =>
    obtain ⟨key, value⟩ := e
    have h1 := h (key, value) (List.mem_cons_self _ _)
    have ih2 := ih (fun e he => h e (List.mem_cons_of_mem _ he))
    simp only [transformMapLoop]
    split
    · exact ih2 acc
    · split
      · exact ih2 _
      · exact ih2 acc
      · exact ih2 acc
      · next heq => exact absurd heq h1
      · exact ih2 acc

theorem Res.map_ne_panic {α β : Type} (f : α → β) (r : Res α) (h : r ≠ .panic) :
    r.map f ≠ .panic := by
  cases r with
  | ok v => simp [Res.map]
  | fail msg => simp [Res.map]
  | panic => exact absurd rfl h

mutual
/-- The dispatch of a panic-free value does not panic. -/
theorem panicFree_value (lib : GoLib) :
    (v : JSON) → v.panicFree = true →
      (∀ key, handleIfMap lib key v ≠ some .panic) ∧ transformIfMap lib v ≠ some .panic
  | .obj kvs, h => by
    have h2 : panicFreeEntries kvs = true := by simpa [JSON.panicFree] using h
    obtain ⟨h3, h4⟩ := panicFree_entries lib kvs h2
    constructor
    · intro key
      simp only [handleIfMap, ne_eq, Option.some.injEq]
      exact h4 key
    · obtain ⟨m, hm⟩ := h3 []
      simp [transformIfMap, hm]
  | .null, _ => by simp [handleIfMap, transformIfMap]
  | .bool _, _ => by simp [handleIfMap, transformIfMap]
  | .num _, _ => by simp [handleIfMap, transformIfMap]
  | .str _, _ => by simp [handleIfMap, transformIfMap]
  | .arr _, _ => by simp [handleIfMap, transformIfMap]
/-- On panic-free entries the loop of `transformMap` returns a map and `handleDataTypes` does not
panic. -/
theorem panicFree_entries (lib : GoLib) :
    (kvs : List (String × JSON)) → panicFreeEntries kvs = true →
      (∀ acc, ∃ m, transformMapLoop lib kvs acc = .ok m) ∧
        (∀ key, handleDataTypes lib key kvs ≠ .panic)
  | [], _ => by
    constructor
    · intro acc
      exact ⟨acc, by simp [transformMapLoop]⟩
    · intro key
      simp [handleDataTypes]
  | (k, v) :: rest, h => by
    have h2 : v.panicFree = true ∧ panicFreeEntries rest = true := by
      simpa [panicFreeEntries] using h
    obtain ⟨hv1, hv2⟩ := panicFree_value lib v h2.1
    obtain ⟨hr1, hr2⟩ := panicFree_entries lib rest h2.2
    constructor
    · intro acc
      simp only [transformMapLoop]
      split
      · exact hr1 acc
      · split
        · exact hr1 _
        · exact hr1 acc
        · exact hr1 acc
        · next heq => exact absurd heq (hv1 _)
        · exact hr1 acc
    · intro key
      simp only [handleDataTypes]
      split
      · split
        · obtain ⟨o, ho⟩ := transformString_ok lib ‹String›
          simp [ho]
        · exact hr2 key
      · split
        · split
          · obtain ⟨o, ho⟩ := transformNumber_ok lib ‹String›
            simp [ho]
          · exact hr2 key
        · split
          · split
            · rw [handleDataTypes_bool]
              obtain ⟨o, ho⟩ := transformBool_ok lib ‹String›
              simp [ho]
            · exact hr2 key
          · split
            · split
              · rw [handleDataTypes_null, transformNull_eq]
                simp
              · exact hr2 key
            · split
              · split
                · next list =>
                  apply Res.map_ne_panic
                  intro hp
                  obtain ⟨x, hx, hb⟩ := (transformList_panic_iff lib list).mp hp
                  have hall : list.all (fun x => !badElement x) = true := by
                    simpa [JSON.panicFree] using h2.1
                  have := List.all_eq_true.mp hall x hx
                  simp [hb] at this
                · exact hr2 key
              · split
                · split
                  · next r heq =>
                    apply Res.map_ne_panic
                    intro hp
                    rw [hp] at heq
                    exact hv2 heq
                  · exact hr2 key
                · exact hr2 key
end

/-! ## Boolean and null normalizers -/

/-- An entry that the dispatch neither stores nor panics on leaves no trace in the loop of
`transformMap`. -/
theorem transformMapLoop_drop (lib : GoLib) (pre post : List (String × JSON)) (key : String)
    (value : JSON) (h1 : ∀ r, handleIfMap lib (trimSpace key) value ≠ some (.ok (some r)))
    (h2 : handleIfMap lib (trimSpace key) value ≠ some .panic) (acc : GoMap) :
    transformMapLoop lib (pre ++ (key, value) :: post) acc =
      transformMapLoop lib (pre ++ post) acc := by
  induction pre generalizing acc with
  | nil =>
    simp only [List.nil_append, transformMapLoop]
    split
    · rfl
    · split
      · next r heq => exact absurd heq (h1 r)
      · rfl
      · rfl
      · next heq => exact absurd heq h2
      · rfl
  | cons e pre ih =>
    obtain ⟨k, v⟩ := e
    show transformMapLoop lib ((k, v) :: (pre ++ (key, value) :: post)) acc =
      transformMapLoop lib ((k, v) :: (pre ++ post)) acc
    simp only [transformMapLoop, ih]

theorem handleDataTypes_NULL (lib : GoLib) (key t : String) (p : JSON)
    (ht : trimSpace t = "NULL") :
    handleDataTypes lib key [(t, p)] = .ok none ∨
      handleDataTypes lib key [(t, p)] = .fail ("invalid type or unsupported key: " ++ key) := by
  cases p <;> simp [handleDataTypes, ht, transformNull_eq]

/-! ## More on list decoding -/

theorem transformListItem_skipped (lib : GoLib) (kvs : List (String × JSON))
    (h : kvs.all (fun e => !decide (e.1 = "N" ∨ e.1 = "BOOL" ∨ e.1 = "S")) = true)
    (list : List Plain) : transformListItem lib kvs list = .ok list := by
  induction kvs with
  | nil => simp [transformListItem]
  | cons e kvs ih =>
    obtain ⟨key, val⟩ := e
    simp only [List.all_cons, Bool.and_eq_true, Bool.not_eq_true', decide_eq_false_iff_not,
      not_or] at h
    obtain ⟨⟨n1, n2, n3⟩, h2⟩ := h
    simp only [transformListItem, n1, n2, n3, if_false]
    exact ih h2

/-- An element skipped for its shape leaves no trace in the loop of `transformList`. -/
theorem transformListLoop_skip (lib : GoLib) (pre post : List JSON) (x : JSON)
    (hx : skipped x = true) (list : List Plain) :
    transformListLoop lib (pre ++ x :: post) list = transformListLoop lib (pre ++ post) list := by
  induction pre generalizing list with
  | nil =>
    cases x with
    | obj kvs =>
      simp only [skipped] at hx
      simp only [List.nil_append, transformListLoop, transformListItem_skipped lib kvs hx]
    | _ => simp only [List.nil_append, transformListLoop]
  | cons y pre ih =>
    show transformListLoop lib (y :: (pre ++ x :: post)) list =
      transformListLoop lib (y :: (pre ++ post)) list
    cases y <;> simp only [transformListLoop, ih]

theorem transformListLoop_filter (lib : GoLib) (input : List JSON) (list : List Plain) :
    transformListLoop lib (input.filter (fun x => !skipped x)) list =
      transformListLoop lib input list := by
  induction input generalizing list with
  | nil => rfl
  | cons x input ih =>
    by_cases hx : skipped x = true
    · have h1 : (x :: input).filter (fun x => !skipped x) =
          input.filter (fun x => !skipped x) := by
        simp [List.filter_cons, hx]
      rw [h1, ih]
      exact (transformListLoop_skip lib [] input x hx list).symm
    · have h1 : (x :: input).filter (fun x => !skipped x) =
          x :: input.filter (fun x => !skipped x) := by
        simp [List.filter_cons, hx]
      rw [h1]
      cases x <;> simp only [transformListLoop, ih]

theorem transformList_congr (lib : GoLib) (xs ys : List JSON)
    (h : transformListLoop lib xs [] = transformListLoop lib ys []) :
    transformList lib xs = transformList lib ys := by
  unfold transformList
  rw [h]

theorem entryValues_length_le (lib : GoLib) (kvs : List (String × JSON)) :
    (kvs.filterMap (entryValue? lib)).length ≤
      (kvs.filter (fun e => decide (e.1 = "N" ∨ e.1 = "BOOL" ∨ e.1 = "S"))).length := by
  induction kvs with
  | nil => simp
  | cons e kvs ih =>
    by_cases he : e.1 = "N" ∨ e.1 = "BOOL" ∨ e.1 = "S"
    · have h1 : (e :: kvs).filter (fun e => decide (e.1 = "N" ∨ e.1 = "BOOL" ∨ e.1 = "S")) =
          e :: kvs.filter (fun e => decide (e.1 = "N" ∨ e.1 = "BOOL" ∨ e.1 = "S")) := by
        simp [List.filter_cons, he]
      rw [h1]
      cases hv : entryValue? lib e with
      | none =>
        rw [List.filterMap_cons_none hv]
        exact Nat.le_succ_of_le ih
      | some v =>
        rw [List.filterMap_cons_some hv]
        simpa using ih
    · have hv : entryValue? lib e = none := by simp [entryValue?, he]
      have h1 : (e :: kvs).filter (fun e => decide (e.1 = "N" ∨ e.1 = "BOOL" ∨ e.1 = "S")) =
          kvs.filter (fun e => decide (e.1 = "N" ∨ e.1 = "BOOL" ∨ e.1 = "S")) := by
        simp [List.filter_cons, he]
      rw [h1, List.filterMap_cons_none hv]
      exact ih

theorem survivors_length_le (lib : GoLib) (input : List JSON) :
    (survivors lib input).length ≤ (input.map tagCount).sum := by
  induction input with
  | nil => simp [survivors]
  | cons x input ih =>
    have hx : (elementValues lib x).length ≤ tagCount x := by
      cases x with
      | obj kvs => exact entryValues_length_le lib kvs
      | _ => simp [elementValues]
    simp only [survivors, List.length_append, List.map_cons, List.sum_cons]
    omega

/-- What `transformList` returns is the list of the survivors. -/
theorem transformList_ok_eq_survivors (lib : GoLib) (input : List JSON) (out : List Plain)
    (h : transformList lib input = .ok out) : out = survivors lib input ∧ out ≠ [] := by
  have hnb : ∀ x ∈ input, badElement x = false := by
    intro x hx
    by_contra hb
    have hp := (transformList_panic_iff lib input).mpr ⟨x, hx, by simpa using hb⟩
    rw [hp] at h
    cases h
  obtain ⟨h1, h2⟩ := transformList_of_no_bad lib input hnb
  by_cases he : survivors lib input = []
  · rw [h1 he] at h
    cases h
  · rw [h2 he] at h
    cases h
    exact ⟨rfl, he⟩

/-! ## The shape of the output -/

theorem dropWhile_prefix_of_dropWhile {α : Type} (p : α → Bool) (l r : List α)
    (h : r <+: l.dropWhile p) : r.dropWhile p = r := by
  cases r with
  | nil => rfl
  | cons a r =>
    obtain ⟨t, ht⟩ := h
    have hd : (a :: (r ++ t)).dropWhile p = a :: (r ++ t) := by
      rw [List.cons_append] at ht
      rw [ht, List.dropWhile_idempotent]
    have ha : ¬ p a = true := by
      intro ha
      rw [List.dropWhile_cons, if_pos ha] at hd
      have hlen := congrArg List.length hd
      have hle := (List.dropWhile_sublist p (l := r ++ t)).length_le
      simp only [List.length_cons] at hlen
      omega
    rw [List.dropWhile_cons, if_neg ha]

/-- Trimming a trimmed string changes nothing. -/
theorem trimSpace_idem (s : String) : trimSpace (trimSpace s) = trimSpace s := by
  unfold trimSpace
  simp only
  have e : ∀ l : List Char, (l.reverse.dropWhile isSpace).reverse = l.rdropWhile isSpace :=
    fun l => rfl
  rw [e, e]
  congr 1
  rw [dropWhile_prefix_of_dropWhile isSpace s.data _ (List.rdropWhile_prefix isSpace _),
    List.rdropWhile_idempotent]

theorem Plain.wellFormed_of_isScalar (v : Plain) (h : v.isScalar = true) :
    v.wellFormed = true := by
  cases v <;> simp [Plain.isScalar] at h <;> simp [Plain.wellFormed]

theorem transformString_scalar (lib : GoLib) (s : String) (v : Plain)
    (h : transformString lib s = .ok (some v)) : v.isScalar = true := by
  unfold transformString at h
  simp only at h
  split at h
  · cases h
  · split at h <;> cases h <;> rfl

theorem transformNumber_scalar (lib : GoLib) (s : String) (v : Plain)
    (h : transformNumber lib s = .ok (some v)) : v.isScalar = true := by
  unfold transformNumber at h
  simp only at h
  split at h
  · cases h
  · split at h
    · cases h
      rfl
    · split at h <;> cases h
      rfl

theorem transformBool_scalar (lib : GoLib) (s : String) (v : Plain)
    (h : transformBool lib s = .ok (some v)) : v.isScalar = true := by
  unfold transformBool at h
  simp only at h
  split at h
  · cases h
    rfl
  · split at h <;> cases h
    rfl

theorem normalizer_scalar (lib : GoLib) (t s : String) (v : Plain)
    (h : (normalizer lib t s).value? = some v) : v.isScalar = true := by
  have h2 : normalizer lib t s = .ok (some v) := by
    cases hr : normalizer lib t s with
    | ok o =>
      rw [hr] at h
      cases o with
      | none => simp [Res.value?] at h
      | some w =>
        simp only [Res.value?, Option.some.injEq] at h
        rw [h]
    | fail msg => rw [hr] at h; simp [Res.value?] at h
    | panic => rw [hr] at h; simp [Res.value?] at h
  unfold normalizer at h2
  split at h2
  · exact transformNumber_scalar lib s v h2
  · split at h2
    · exact transformBool_scalar lib s v h2
    · exact transformString_scalar lib s v h2

theorem survivors_scalar (lib : GoLib) (input : List JSON) :
    ∀ v ∈ survivors lib input, v.isScalar = true := by
  induction input with
  | nil => simp [survivors]
  | cons x input ih =>
    intro v hv
    simp only [survivors, List.mem_append] at hv
    rcases hv with hv | hv
    · cases x with
      | obj kvs =>
        simp only [elementValues, List.mem_filterMap] at hv
        obtain ⟨e, _, he⟩ := hv
        unfold entryValue? at he
        split at he
        · split at he
          · exact normalizer_scalar lib _ _ v he
          · cases he
        · cases he
      | _ => simp [elementValues] at hv
    · exact ih v hv

/-- A list that `transformList` returns is non-empty and holds scalars only. -/
theorem transformList_wellFormed (lib : GoLib) (input : List JSON) (out : List Plain)
    (h : transformList lib input = .ok out) : (Plain.list out).wellFormed = true := by
  obtain ⟨h1, h2⟩ := transformList_ok_eq_survivors lib input out h
  have h3 := survivors_scalar lib input
  rw [← h1] at h3
  simp only [Plain.wellFormed, Bool.and_eq_true, Bool.not_eq_true', List.isEmpty_eq_false,
    List.all_eq_true]
  exact ⟨h2, h3⟩

theorem wellFormedEntries_set (m : GoMap) (k : String) (v : Plain)
    (hm : wellFormedEntries m = true) (hk : k ≠ "") (ht : trimSpace k = k)
    (hv : v.wellFormed = true) : wellFormedEntries (GoMap.set m k v) = true := by
  induction m with
  | nil => simp [GoMap.set, wellFormedEntries, hk, ht, hv]
  | cons e m ih =>
    obtain ⟨k', v'⟩ := e
    simp only [wellFormedEntries, Bool.and_eq_true, decide_eq_true_eq] at hm
    obtain ⟨⟨⟨h1, h2⟩, h3⟩, h4⟩ := hm
    simp only [GoMap.set]
    split
    · simp [wellFormedEntries, hk, ht, hv, h4]
    · split
      · simp [wellFormedEntries, hk, ht, hv, h1, h2, h3, h4]
      · simp [wellFormedEntries, h1, h2, h3, ih h4]

mutual
/-- What the dispatch of a value stores is well-formed. -/
theorem wellFormed_value (lib : GoLib) :
    (v : JSON) →
      (∀ key r, handleIfMap lib key v = some (.ok (some r)) → r.wellFormed = true) ∧
        (∀ m, transformIfMap lib v = some (.ok m) → wellFormedEntries m = true)
  | .obj kvs => by
    obtain ⟨h1, h2⟩ := wellFormed_entries lib kvs
    constructor
    · intro key r h
      simp only [handleIfMap, Option.some.injEq] at h
      exact h2 key r h
    · intro m h
      simp only [transformIfMap, Option.some.injEq] at h
      exact h1 [] m rfl h
  | .null => by simp [handleIfMap, transformIfMap]
  | .bool _ => by simp [handleIfMap, transformIfMap]
  | .num _ => by simp [handleIfMap, transformIfMap]
  | .str _ => by simp [handleIfMap, transformIfMap]
  | .arr _ => by simp [handleIfMap, transformIfMap]
/-- The loop of `transformMap` keeps a map well-formed, and what `handleDataTypes` returns is
well-formed. -/
theorem wellFormed_entries (lib : GoLib) :
    (kvs : List (String × JSON)) →
      (∀ acc m, wellFormedEntries acc = true → transformMapLoop lib kvs acc = .ok m →
          wellFormedEntries m = true) ∧
        (∀ key r, handleDataTypes lib key kvs = .ok (some r) → r.wellFormed = true)
  | [] => by
    constructor
    · intro acc m hacc h
      simp only [transformMapLoop] at h
      cases h
      exact hacc
    · intro key r h
      simp [handleDataTypes] at h
  | (k, v) :: rest => by
    obtain ⟨hv1, hv2⟩ := wellFormed_value lib v
    obtain ⟨hr1, hr2⟩ := wellFormed_entries lib rest
    constructor
    · intro acc m hacc h
      simp only [transformMapLoop] at h
      split at h
      · exact hr1 acc m hacc h
      · next hne =>
        split at h
        · next r heq =>
          exact hr1 _ m (wellFormedEntries_set acc _ r hacc hne (trimSpace_idem k)
            (hv1 _ r heq)) h
        · exact hr1 acc m hacc h
        · exact hr1 acc m hacc h
        · cases h
        · exact hr1 acc m hacc h
    · intro key r h
      simp only [handleDataTypes] at h
      split at h
      · split at h
        · exact Plain.wellFormed_of_isScalar r (transformString_scalar lib _ r h)
        · exact hr2 key r h
      · split at h
        · split at h
          · exact Plain.wellFormed_of_isScalar r (transformNumber_scalar lib _ r h)
          · exact hr2 key r h
        · split at h
          · split at h
            · rw [handleDataTypes_bool] at h
              exact Plain.wellFormed_of_isScalar r (transformBool_scalar lib _ r h)
            · exact hr2 key r h
          · split at h
            · split at h
              · rw [handleDataTypes_null, transformNull_eq] at h
                cases h
              · exact hr2 key r h
            · split at h
              · split at h
                · next list =>
                  cases hl : transformList lib list with
                  | ok l =>
                    rw [hl] at h
                    simp only [Res.map, Res.ok.injEq, Option.some.injEq] at h
                    rw [← h]
                    exact transformList_wellFormed lib list l hl
                  | fail msg => rw [hl] at h; simp [Res.map] at h
                  | panic => rw [hl] at h; simp [Res.map] at h
                · exact hr2 key r h
              · split at h
                · split at h
                  · next r' heq =>
                    cases r' with
                    | ok m =>
                      simp only [Res.map, Res.ok.injEq, Option.some.injEq] at h
                      rw [← h]
                      simp only [Plain.wellFormed]
                      exact hv2 m heq
                    | fail msg => simp [Res.map] at h
                    | panic => simp [Res.map] at h
                  · exact hr2 key r h
                · exact hr2 key r h
end

theorem handleDataTypes_M (lib : GoLib) (key : String) (p : List (String × JSON)) :
    handleDataTypes lib key [("M", .obj p)] =
      (transformMap lib p).map (fun m => some (.map m)) := by
  have e : trimSpace "M" = "M" := rfl
  simp [handleDataTypes, e, transformIfMap, transformMap]

theorem transformMap_single_M (lib : GoLib) (k : String) (p : List (String × JSON))
    (hk : trimSpace k ≠ "") :
    transformMap lib [(k, .obj [("M", .obj p)])] =
      match transformMap lib p with
      | .ok m => .ok [(trimSpace k, .map m)]
      | .fail _ => .ok []
      | .panic => .panic := by
  show transformMapLoop lib [(k, .obj [("M", .obj p)])] [] = _
  simp only [transformMapLoop, hk, if_false, handleIfMap]
  rw [handleDataTypes_M]
  generalize transformMap lib p = r
  cases r <;> simp [Res.map, GoMap.set]

/-! ## The order of the keys and the commutation of stores -/

theorem char_toNat_inj (a b : Char) (h : a.toNat = b.toNat) : a = b := by
  apply Char.ext
  apply UInt32.ext
  exact h

theorem strLt_irrefl (a : List Char) : strLt a a = false := by
  induction a with
  | nil => rfl
  | cons c cs ih => simp [strLt, ih]

theorem strLt_asymm (a b : List Char) (h : strLt a b = true) : strLt b a = false := by
  induction a generalizing b with
  | nil => cases b <;> simp [strLt] at h ⊢
  | cons c cs ih =>
    cases b with
    | nil => simp [strLt] at h
    | cons d ds =>
      simp only [strLt, Bool.or_eq_true, decide_eq_true_eq, Bool.and_eq_true] at h
      simp only [strLt, Bool.or_eq_false_iff, decide_eq_false_iff_not, Bool.and_eq_false_imp,
        decide_eq_true_eq]
      rcases h with h | ⟨h1, h2⟩
      · constructor
        · omega
        · intro e
          omega
      · constructor
        · omega
        · intro _
          exact ih ds h2

theorem strLt_connected (a b : List Char) (h : a ≠ b) :
    strLt a b = true ∨ strLt b a = true := by
  induction a generalizing b with
  | nil =>
    cases b with
    | nil => exact absurd rfl h
    | cons d ds => exact Or.inl rfl
  | cons c cs ih =>
    cases b with
    | nil => exact Or.inr rfl
    | cons d ds =>
      simp only [strLt, Bool.or_eq_true, decide_eq_true_eq, Bool.and_eq_true]
      rcases Nat.lt_trichotomy c.toNat d.toNat with h1 | h1 | h1
      · exact Or.inl (Or.inl h1)
      · have hcd : c = d := char_toNat_inj c d h1
        subst hcd
        have hne : cs ≠ ds := fun e => h (by rw [e])
        rcases ih ds hne with h2 | h2
        · exact Or.inl (Or.inr ⟨rfl, h2⟩)
        · exact Or.inr (Or.inr ⟨rfl, h2⟩)
      · exact Or.inr (Or.inl h1)

theorem strLt_trans (a b c : List Char) (h1 : strLt a b = true) (h2 : strLt b c = true) :
    strLt a c = true := by
  induction a generalizing b c with
  | nil =>
    cases b with
    | nil => simp [strLt] at h1
    | cons y ys =>
      cases c with
      | nil => simp [strLt] at h2
      | cons z zs => rfl
  | cons x xs ih =>
    cases b with
    | nil => simp [strLt] at h1
    | cons y ys =>
      cases c with
      | nil => simp [strLt] at h2
      | cons z zs =>
        simp only [strLt, Bool.or_eq_true, decide_eq_true_eq, Bool.and_eq_true] at h1 h2 ⊢
        rcases h1 with h1 | ⟨e1, h1⟩
        · rcases h2 with h2 | ⟨e2, h2⟩
          · exact Or.inl (by omega)
          · exact Or.inl (by omega)
        · rcases h2 with h2 | ⟨e2, h2⟩
          · exact Or.inl (by omega)
          · exact Or.inr ⟨by omega, ih ys zs h1 h2⟩


/-- Stores under two different keys commute. -/
theorem GoMap.set_comm (m : GoMap) (k k' : String) (v v' : Plain) (h : k ≠ k') :
    GoMap.set (GoMap.set m k v) k' v' = GoMap.set (GoMap.set m k' v') k v := by
  have hd : k.data ≠ k'.data := fun e => h (String.ext e)
  have h' : k' ≠ k := Ne.symm h
  induction m with
  | nil =>
    rcases strLt_connected _ _ hd with h1 | h1
    · have h2 := strLt_asymm _ _ h1
      simp [GoMap.set, h, h', h1, h2]
    · have h2 := strLt_asymm _ _ h1
      simp [GoMap.set, h, h', h1, h2]
  | cons e m ih =>
    obtain ⟨x, xv⟩ := e
    by_cases e1 : k = x
    · subst e1
      by_cases l1 : strLt k'.data k.data = true
      · have l2 := strLt_asymm _ _ l1
        simp [GoMap.set, h, h', l1, l2]
      · simp [GoMap.set, h, h', l1]
    · by_cases e2 : k' = x
      · subst e2
        by_cases l1 : strLt k.data k'.data = true
        · have l2 := strLt_asymm _ _ l1
          simp [GoMap.set, h, h', l1, l2]
        · simp [GoMap.set, h, h', l1]
      · have hx1 : k.data ≠ x.data := fun e => e1 (String.ext e)
        have hx2 : k'.data ≠ x.data := fun e => e2 (String.ext e)
        by_cases a1 : strLt k.data x.data = true
        · by_cases a2 : strLt k'.data x.data = true
          · rcases strLt_connected _ _ hd with h1 | h1
            · have h2 := strLt_asymm _ _ h1
              simp [GoMap.set, h, h', e1, e2, a1, a2, h1, h2]
            · have h2 := strLt_asymm _ _ h1
              simp [GoMap.set, h, h', e1, e2, a1, a2, h1, h2]
          · have b2 : strLt x.data k'.data = true := by
              rcases strLt_connected _ _ hx2 with c | c
              · exact absurd c a2
              · exact c
            have h1 : strLt k.data k'.data = true := strLt_trans _ _ _ a1 b2
            have h2 := strLt_asymm _ _ h1
            simp [GoMap.set, h, h', e1, e2, a1, a2, h1, h2]
        · by_cases a2 : strLt k'.data x.data = true
          · have b1 : strLt x.data k.data = true := by
              rcases strLt_connected _ _ hx1 with c | c
              · exact absurd c a1
              · exact c
            have h1 : strLt k'.data k.data = true := strLt_trans _ _ _ a2 b1
            have h2 := strLt_asymm _ _ h1
            simp [GoMap.set, h, h', e1, e2, a1, a2, h1, h2]
          · simp [GoMap.set, h, h', e1, e2, a1, a2, ih]

/-! ## The loop of `transformMap` as a fold, and its independence of the order -/

theorem foldl_mapStep_panic (lib : GoLib) (l : List (String × JSON)) :
    l.foldl (mapStep lib) .panic = .panic := by
  induction l with
  | nil => rfl
  | cons e l ih => simpa [List.foldl_cons, mapStep] using ih

theorem transformMapLoop_eq_foldl (lib : GoLib) (input : List (String × JSON)) (acc : GoMap) :
    transformMapLoop lib input acc = input.foldl (mapStep lib) (.ok acc) := by
  induction input generalizing acc with
  | nil => rfl
  | cons e input ih =>
    obtain ⟨key, value⟩ := e
    simp only [transformMapLoop, List.foldl_cons, mapStep]
    split
    · exact ih acc
    · split
      · next heq => simp only [heq]; exact ih _
      · next heq => simp only [heq]; exact ih _
      · next heq => simp only [heq]; exact ih _
      · next heq => simp only [heq]; exact (foldl_mapStep_panic lib input).symm
      · next heq => simp only [heq]; exact ih _

theorem mapStep_comm (lib : GoLib) (x y : String × JSON)
    (h : trimSpace x.1 = trimSpace y.1 → trimSpace x.1 = "") (r : Res GoMap) :
    mapStep lib (mapStep lib r x) y = mapStep lib (mapStep lib r y) x := by
  cases r with
  | fail msg => rfl
  | panic => rfl
  | ok acc =>
    by_cases hx : trimSpace x.1 = ""
    · by_cases hy : trimSpace y.1 = ""
      · simp [mapStep, hx, hy]
      · simp only [mapStep, hx, hy, if_true, if_false]
        rcases handleIfMap lib (trimSpace y.1) y.2 with _ | (_ | _) | _ | _ <;>
          simp [hx]
    · by_cases hy : trimSpace y.1 = ""
      · simp only [mapStep, hx, hy, if_true, if_false]
        rcases handleIfMap lib (trimSpace x.1) x.2 with _ | (_ | _) | _ | _ <;>
          simp [hy]
      · have hne : trimSpace x.1 ≠ trimSpace y.1 := fun e => hx (h e)
        simp only [mapStep, hx, hy, if_false]
        rcases handleIfMap lib (trimSpace x.1) x.2 with _ | (_ | _) | _ | _ <;>
          rcases handleIfMap lib (trimSpace y.1) y.2 with _ | (_ | _) | _ | _ <;>
          simp [hx, hy, GoMap.set_comm _ _ _ _ _ hne]

/-- The loop of `transformMap` does not depend on the order of entries of which no two share a
non-empty trimmed key. -/
theorem transformMapLoop_perm (lib : GoLib) (l₁ l₂ : List (String × JSON)) (hp : l₁.Perm l₂)
    (hc : noKeyClash l₁) (acc : GoMap) :
    transformMapLoop lib l₁ acc = transformMapLoop lib l₂ acc := by
  rw [transformMapLoop_eq_foldl, transformMapLoop_eq_foldl]
  apply List.Perm.foldl_eq' hp
  intro x hx y hy z
  by_cases e : x = y
  · rw [e]
  · apply mapStep_comm
    have hsymm : Symmetric (fun a b : String × JSON =>
        trimSpace a.1 = trimSpace b.1 → trimSpace a.1 = "") := by
      intro a b hab hba
      rw [hba]
      exact hab hba.symm
    exact List.Pairwise.forall hsymm hc hx hy e

/-! ## A single candidate makes the order of an object irrelevant -/

theorem filter_eq_of_perm_of_length_le_one {α : Type} (p : α → Bool) (l₁ l₂ : List α)
    (hp : l₁.Perm l₂) (h : (l₁.filter p).length ≤ 1) : l₁.filter p = l₂.filter p := by
  have hf : (l₁.filter p).Perm (l₂.filter p) := hp.filter p
  cases hl : l₁.filter p with
  | nil =>
    rw [hl] at hf
    exact (List.nil_perm.mp hf).symm
  | cons a t =>
    rw [hl] at h hf
    have ht : t = [] := by
      cases t with
      | nil => rfl
      | cons b t => simp at h
    subst ht
    exact List.singleton_perm.mp hf

/-- The dispatch looks only at the entries whose key trims to a type tag. -/
theorem handleDataTypes_filter (lib : GoLib) (key : String) (tv : List (String × JSON)) :
    handleDataTypes lib key (tv.filter (fun e => isTypeTag e.1)) = handleDataTypes lib key tv := by
  induction tv with
  | nil => rfl
  | cons e tv ih =>
    obtain ⟨t, p⟩ := e
    by_cases ht : isTypeTag t = true
    · have h1 : ((t, p) :: tv).filter (fun e => isTypeTag e.1) =
          (t, p) :: tv.filter (fun e => isTypeTag e.1) := by
        simp [List.filter_cons, ht]
      rw [h1]
      simp only [handleDataTypes, ih]
    · have h1 : ((t, p) :: tv).filter (fun e => isTypeTag e.1) =
          tv.filter (fun e => isTypeTag e.1) := by
        simp [List.filter_cons, ht]
      rw [h1, ih]
      simp only [isTypeTag, decide_eq_true_eq, not_or] at ht
      obtain ⟨n1, n2, n3, n4, n5, n6⟩ := ht
      simp only [handleDataTypes, n1, n2, n3, n4, n5, n6, if_false]

/-- The dispatch does not depend on the order of the entries of a tagged value of which at most
one has a key that trims to a type tag. -/
theorem handleDataTypes_perm (lib : GoLib) (key : String) (l₁ l₂ : List (String × JSON))
    (hp : l₁.Perm l₂) (h : (l₁.filter (fun e => isTypeTag e.1)).length ≤ 1) :
    handleDataTypes lib key l₁ = handleDataTypes lib key l₂ := by
  rw [← handleDataTypes_filter lib key l₁, ← handleDataTypes_filter lib key l₂,
    filter_eq_of_perm_of_length_le_one _ l₁ l₂ hp h]

/-- The inner loop of `transformList` looks only at the entries keyed `N`, `BOOL` or `S`. -/
theorem transformListItem_filter (lib : GoLib) (kvs : List (String × JSON)) (list : List Plain) :
    transformListItem lib
        (kvs.filter (fun e => decide (e.1 = "N" ∨ e.1 = "BOOL" ∨ e.1 = "S"))) list =
      transformListItem lib kvs list := by
  induction kvs generalizing list with
  | nil => rfl
  | cons e kvs ih =>
    obtain ⟨k, v⟩ := e
    by_cases hk : k = "N" ∨ k = "BOOL" ∨ k = "S"
    · have h1 : ((k, v) :: kvs).filter (fun e => decide (e.1 = "N" ∨ e.1 = "BOOL" ∨ e.1 = "S")) =
          (k, v) :: kvs.filter (fun e => decide (e.1 = "N" ∨ e.1 = "BOOL" ∨ e.1 = "S")) := by
        simp [List.filter_cons, hk]
      rw [h1]
      simp only [transformListItem, ih]
    · have h1 : ((k, v) :: kvs).filter (fun e => decide (e.1 = "N" ∨ e.1 = "BOOL" ∨ e.1 = "S")) =
          kvs.filter (fun e => decide (e.1 = "N" ∨ e.1 = "BOOL" ∨ e.1 = "S")) := by
        simp [List.filter_cons, hk]
      rw [h1, ih]
      simp only [not_or] at hk
      obtain ⟨n1, n2, n3⟩ := hk
      simp only [transformListItem, n1, n2, n3, if_false]

/-- The inner loop of `transformList` does not depend on the order of the entries of an element
that carries at most one of the tags. -/
theorem transformListItem_perm (lib : GoLib) (l₁ l₂ : List (String × JSON)) (hp : l₁.Perm l₂)
    (h : tagCount (.obj l₁) ≤ 1) (list : List Plain) :
    transformListItem lib l₁ list = transformListItem lib l₂ list := by
  rw [← transformListItem_filter lib l₁, ← transformListItem_filter lib l₂,
    filter_eq_of_perm_of_length_le_one _ l₁ l₂ hp h]

/-! ## Decoding does not depend on the visiting order where no object offers a choice -/

theorem reordersEntries_keys (kvs kvs1 : List (String × JSON)) (h : reordersEntries kvs kvs1) :
    kvs1.map Prod.fst = kvs.map Prod.fst := by
  induction kvs generalizing kvs1 with
  | nil =>
    simp only [reordersEntries] at h
    rw [h]
  | cons e kvs ih =>
    obtain ⟨k, v⟩ := e
    simp only [reordersEntries] at h
    obtain ⟨v', rest', e1, _, h2⟩ := h
    rw [e1]
    simp only [List.map_cons, ih rest' h2]

theorem filter_key_length (q : String → Bool) (kvs : List (String × JSON)) :
    (kvs.filter (fun e => q e.1)).length = ((kvs.map Prod.fst).filter q).length := by
  induction kvs with
  | nil => rfl
  | cons e kvs ih =>
    by_cases hq : q e.1 = true
    · simp [List.filter_cons, hq, ih]
    · simp [List.filter_cons, hq, ih]

theorem noKeyClash_of_keys (kvs kvs1 : List (String × JSON))
    (h : kvs1.map Prod.fst = kvs.map Prod.fst) (hc : noKeyClash kvs) : noKeyClash kvs1 := by
  unfold noKeyClash at hc ⊢
  have e : ∀ l : List (String × JSON),
      l.Pairwise (fun a b => trimSpace a.1 = trimSpace b.1 → trimSpace a.1 = "") ↔
        (l.map Prod.fst).Pairwise (fun a b => trimSpace a = trimSpace b → trimSpace a = "") :=
    fun l => (List.pairwise_map (f := Prod.fst)
      (R := fun a b => trimSpace a = trimSpace b → trimSpace a = "")).symm
  rw [e] at hc ⊢
  rw [h]
  exact hc

theorem reorders_str (v v' : JSON) (s : String) (h : v.reorders v') (hv : v = .str s) :
    v' = .str s := by
  subst hv
  simpa [JSON.reorders] using h

theorem reorders_isString (v v' : JSON) (h : v.reorders v') : v'.isString = v.isString := by
  cases v with
  | obj kvs =>
    simp only [JSON.reorders] at h
    obtain ⟨_, _, e, _⟩ := h
    rw [e]
    rfl
  | arr xs =>
    simp only [JSON.reorders] at h
    obtain ⟨_, e, _⟩ := h
    rw [e]
    rfl
  | null => simp only [JSON.reorders] at h; rw [h]
  | bool b => simp only [JSON.reorders] at h; rw [h]
  | num f => simp only [JSON.reorders] at h; rw [h]
  | str s => simp only [JSON.reorders] at h; rw [h]

theorem transformListItem_not_string (lib : GoLib) (k : String) (v : JSON)
    (rest : List (String × JSON)) (list : List Plain) (hv : v.isString = false) :
    transformListItem lib ((k, v) :: rest) list =
      if k = "N" ∨ k = "BOOL" ∨ k = "S" then .panic else transformListItem lib rest list := by
  by_cases h1 : k = "N"
  · subst h1
    cases v <;> simp [JSON.isString] at hv <;> simp [transformListItem]
  · by_cases h2 : k = "BOOL"
    · subst h2
      cases v <;> simp [JSON.isString] at hv <;> simp [transformListItem]
    · by_cases h3 : k = "S"
      · subst h3
        cases v <;> simp [JSON.isString] at hv <;> simp [transformListItem]
      · simp [transformListItem, h1, h2, h3]

theorem transformListItem_reorders (lib : GoLib) (kvs kvs1 : List (String × JSON))
    (h : reordersEntries kvs kvs1) (list : List Plain) :
    transformListItem lib kvs list = transformListItem lib kvs1 list := by
  induction kvs generalizing kvs1 list with
  | nil =>
    simp only [reordersEntries] at h
    rw [h]
  | cons e kvs ih =>
    obtain ⟨k, v⟩ := e
    simp only [reordersEntries] at h
    obtain ⟨v', rest', e1, hv, h2⟩ := h
    rw [e1]
    by_cases hs : v.isString = true
    · cases v with
      | str s =>
        rw [reorders_str _ v' s hv rfl]
        simp only [transformListItem, ih rest' h2]
      | _ => simp [JSON.isString] at hs
    · have hs1 : v.isString = false := by simpa using hs
      have hs2 : v'.isString = false := by rw [reorders_isString v v' hv]; exact hs1
      rw [transformListItem_not_string lib k v kvs list hs1,
        transformListItem_not_string lib k v' rest' list hs2, ih rest' h2]

theorem tagCount_of_keys (kvs kvs1 : List (String × JSON))
    (h : kvs1.map Prod.fst = kvs.map Prod.fst) : tagCount (.obj kvs1) = tagCount (.obj kvs) := by
  simp only [tagCount]
  rw [filter_key_length (fun k => decide (k = "N" ∨ k = "BOOL" ∨ k = "S")) kvs1,
    filter_key_length (fun k => decide (k = "N" ∨ k = "BOOL" ∨ k = "S")) kvs, h]

theorem transformListLoop_reorders (lib : GoLib) (xs ys : List JSON)
    (hc : ∀ x ∈ xs, tagCount x ≤ 1) (h : reordersList xs ys) (list : List Plain) :
    transformListLoop lib xs list = transformListLoop lib ys list := by
  induction xs generalizing ys list with
  | nil =>
    simp only [reordersList] at h
    rw [h]
  | cons x xs ih =>
    simp only [reordersList] at h
    obtain ⟨y, ys', e1, hxy, h2⟩ := h
    rw [e1]
    have ih2 := ih ys' (fun z hz => hc z (List.mem_cons_of_mem _ hz)) h2
    have hx := hc x (List.mem_cons_self _ _)
    cases x with
    | obj kvs =>
      simp only [JSON.reorders] at hxy
      obtain ⟨kvs1, kvs', e2, h3, hp⟩ := hxy
      rw [e2]
      have hk := reordersEntries_keys kvs kvs1 h3
      have hcount : tagCount (.obj kvs1) ≤ 1 := by rw [tagCount_of_keys kvs kvs1 hk]; exact hx
      have e3 : transformListItem lib kvs' list = transformListItem lib kvs list := by
        rw [← transformListItem_perm lib kvs1 kvs' hp hcount list,
          transformListItem_reorders lib kvs kvs1 h3 list]
      simp only [transformListLoop, e3, ih2]
    | arr zs =>
      simp only [JSON.reorders] at hxy
      obtain ⟨_, e2, _⟩ := hxy
      rw [e2]
      simp only [transformListLoop, ih2]
    | null => simp only [JSON.reorders] at hxy; rw [hxy]; simp only [transformListLoop, ih2]
    | bool b => simp only [JSON.reorders] at hxy; rw [hxy]; simp only [transformListLoop, ih2]
    | num f => simp only [JSON.reorders] at hxy; rw [hxy]; simp only [transformListLoop, ih2]
    | str s => simp only [JSON.reorders] at hxy; rw [hxy]; simp only [transformListLoop, ih2]

/-- List decoding does not depend on the visiting order of elements that carry at most one of
the tags. -/
theorem transformList_reorders (lib : GoLib) (xs ys : List JSON)
    (hc : ∀ x ∈ xs, tagCount x ≤ 1) (h : reordersList xs ys) :
    transformList lib xs = transformList lib ys :=
  transformList_congr lib xs ys (transformListLoop_reorders lib xs ys hc h [])

theorem handleDataTypes_cons_not_string (lib : GoLib) (key t : String) (p : JSON)
    (rest : List (String × JSON)) (hp : p.isString = false)
    (ht : trimSpace t ≠ "L") (hm : trimSpace t ≠ "M") :
    handleDataTypes lib key ((t, p) :: rest) = handleDataTypes lib key rest := by
  cases p <;> simp [JSON.isString] at hp <;>
    simp [handleDataTypes, ht, hm, transformIfMap]

mutual
/-- Dispatch and map decoding of a value do not depend on the visiting order. -/
theorem reorders_value (lib : GoLib) :
    (v : JSON) →
      (∀ v' key, v.choiceFreeTagged → v.reorders v' →
          handleIfMap lib key v = handleIfMap lib key v') ∧
        (∀ v', v.choiceFreeMap → v.reorders v' → transformIfMap lib v = transformIfMap lib v')
  | .obj kvs => by
    obtain ⟨h1, h2⟩ := reorders_entries lib kvs
    constructor
    · intro v' key hc hr
      simp only [JSON.reorders] at hr
      obtain ⟨kvs1, kvs', e, hr1, hp⟩ := hr
      simp only [JSON.choiceFreeTagged] at hc
      obtain ⟨hlen, hpay⟩ := hc
      have hk := reordersEntries_keys kvs kvs1 hr1
      have hlen1 : (kvs1.filter (fun e => isTypeTag e.1)).length ≤ 1 := by
        rw [filter_key_length isTypeTag kvs1, hk, ← filter_key_length isTypeTag kvs]
        exact hlen
      rw [e]
      simp only [handleIfMap]
      rw [h2 kvs1 key hpay hr1, handleDataTypes_perm lib key kvs1 kvs' hp hlen1]
    · intro v' hc hr
      simp only [JSON.reorders] at hr
      obtain ⟨kvs1, kvs', e, hr1, hp⟩ := hr
      simp only [JSON.choiceFreeMap] at hc
      obtain ⟨hclash, hent⟩ := hc
      have hk := reordersEntries_keys kvs kvs1 hr1
      rw [e]
      simp only [transformIfMap]
      rw [h1 kvs1 [] hent hr1,
        transformMapLoop_perm lib kvs1 kvs' hp (noKeyClash_of_keys kvs kvs1 hk hclash) []]
  | .null => by
    constructor
    · intro v' key _ hr
      simp only [JSON.reorders] at hr
      rw [hr]
    · intro v' _ hr
      simp only [JSON.reorders] at hr
      rw [hr]
  | .bool _ => by
    constructor
    · intro v' key _ hr
      simp only [JSON.reorders] at hr
      rw [hr]
    · intro v' _ hr
      simp only [JSON.reorders] at hr
      rw [hr]
  | .num _ => by
    constructor
    · intro v' key _ hr
      simp only [JSON.reorders] at hr
      rw [hr]
    · intro v' _ hr
      simp only [JSON.reorders] at hr
      rw [hr]
  | .str _ => by
    constructor
    · intro v' key _ hr
      simp only [JSON.reorders] at hr
      rw [hr]
    · intro v' _ hr
      simp only [JSON.reorders] at hr
      rw [hr]
  | .arr _ => by
    constructor
    · intro v' key _ hr
      simp only [JSON.reorders] at hr
      obtain ⟨ys, e, _⟩ := hr
      rw [e]
      simp only [handleIfMap]
    · intro v' _ hr
      simp only [JSON.reorders] at hr
      obtain ⟨ys, e, _⟩ := hr
      rw [e]
      simp only [transformIfMap]
/-- The loop of `transformMap` and the dispatch do not depend on the visiting orders inside the
values of the entries. -/
theorem reorders_entries (lib : GoLib) :
    (kvs : List (String × JSON)) →
      (∀ kvs1 acc, choiceFreeEntries kvs → reordersEntries kvs kvs1 →
          transformMapLoop lib kvs acc = transformMapLoop lib kvs1 acc) ∧
        (∀ kvs1 key, choiceFreePayloads kvs → reordersEntries kvs kvs1 →
          handleDataTypes lib key kvs = handleDataTypes lib key kvs1)
  | [] => by
    constructor
    · intro kvs1 acc _ hr
      simp only [reordersEntries] at hr
      rw [hr]
    · intro kvs1 key _ hr
      simp only [reordersEntries] at hr
      rw [hr]
  | (k, v) :: rest => by
    obtain ⟨hv1, hv2⟩ := reorders_value lib v
    obtain ⟨hr1, hr2⟩ := reorders_entries lib rest
    constructor
    · intro kvs1 acc hc hr
      simp only [reordersEntries] at hr
      obtain ⟨v', rest', e, hvv, hrr⟩ := hr
      simp only [choiceFreeEntries] at hc
      obtain ⟨hcv, hcr⟩ := hc
      rw [e]
      by_cases hk : trimSpace k = ""
      · simp only [transformMapLoop, hk, if_true]
        exact hr1 rest' acc hcr hrr
      · have e2 := hv1 v' (trimSpace k) (hcv hk) hvv
        have ih : ∀ acc, transformMapLoop lib rest acc = transformMapLoop lib rest' acc :=
          fun acc => hr1 rest' acc hcr hrr
        simp only [transformMapLoop, hk, if_false, e2, ih]
    · intro kvs1 key hc hr
      simp only [reordersEntries] at hr
      obtain ⟨p', rest', e, hvv, hrr⟩ := hr
      simp only [choiceFreePayloads] at hc
      obtain ⟨hcm, hcl, hcr⟩ := hc
      rw [e]
      have ih : handleDataTypes lib key rest = handleDataTypes lib key rest' :=
        hr2 rest' key hcr hrr
      by_cases hL : trimSpace k = "L"
      · cases v with
        | arr xs =>
          simp only [JSON.reorders] at hvv
          obtain ⟨ys, e3, hxy⟩ := hvv
          rw [e3]
          have hlist := transformList_reorders lib xs ys (hcl hL) hxy
          simp [handleDataTypes, hL, hlist]
        | obj m =>
          simp only [JSON.reorders] at hvv
          obtain ⟨_, m', e3, _⟩ := hvv
          rw [e3]
          simp [handleDataTypes, hL, ih]
        | null => simp only [JSON.reorders] at hvv; rw [hvv]; simp [handleDataTypes, hL, ih]
        | bool b => simp only [JSON.reorders] at hvv; rw [hvv]; simp [handleDataTypes, hL, ih]
        | num f => simp only [JSON.reorders] at hvv; rw [hvv]; simp [handleDataTypes, hL, ih]
        | str s => simp only [JSON.reorders] at hvv; rw [hvv]; simp [handleDataTypes, hL, ih]
      · by_cases hM : trimSpace k = "M"
        · have e2 := hv2 p' (hcm hM) hvv
          simp [handleDataTypes, hM, e2, ih]
        · by_cases hs : v.isString = true
          · cases v with
            | str s =>
              rw [reorders_str _ p' s hvv rfl]
              simp only [handleDataTypes, ih]
            | _ => simp [JSON.isString] at hs
          · have hs1 : v.isString = false := by simpa using hs
            have hs2 : p'.isString = false := by rw [reorders_isString v p' hvv]; exact hs1
            rw [handleDataTypes_cons_not_string lib key k v rest hs1 hL hM,
              handleDataTypes_cons_not_string lib key k p' rest' hs2 hL hM, ih]
end

/-- Decoding does not depend on the visiting order of a document that offers no choice. -/
theorem TransformJSON_reorders (lib : GoLib) (j j' : JSON) (hc : j.choiceFree)
    (hr : j.reorders j') : TransformJSON lib j = TransformJSON lib j' := by
  obtain ⟨hm, ha⟩ := hc
  cases j with
  | obj kvs =>
    have e := (reorders_value lib (.obj kvs)).2 j' hm hr
    simp only [JSON.reorders] at hr
    obtain ⟨_, kvs', e2, _, _⟩ := hr
    rw [e2] at e ⊢
    simp only [transformIfMap, Option.some.injEq] at e
    simp only [TransformJSON, transformMap, e]
  | arr xs =>
    simp only [JSON.reorders] at hr
    obtain ⟨ys, e, hxy⟩ := hr
    rw [e]
    simp only [JSON.choiceFreeArr] at ha
    simp only [TransformJSON, transformList_reorders lib xs ys ha hxy]
  | null => simp only [JSON.reorders] at hr; rw [hr]
  | bool b => simp only [JSON.reorders] at hr; rw [hr]
  | num f => simp only [JSON.reorders] at hr; rw [hr]
  | str s => simp only [JSON.reorders] at hr; rw [hr]

/-! ## Single-key documents offer no choice -/

theorem choiceFreeArr_of_singleKeyArr (j : JSON) (h : j.singleKeyArr) : j.choiceFreeArr := by
  cases j with
  | arr xs =>
    simp only [JSON.singleKeyArr] at h
    simp only [JSON.choiceFreeArr]
    intro x hx
    cases x with
    | obj kvs =>
      have hl := h _ hx kvs rfl
      have hle := (List.filter_sublist (l := kvs)
        (p := fun e => decide (e.1 = "N" ∨ e.1 = "BOOL" ∨ e.1 = "S"))).length_le
      simp only [tagCount]
      omega
    | _ => simp [tagCount]
  | _ => simp [JSON.choiceFreeArr]

mutual
theorem choiceFree_of_singleKey_value :
    (v : JSON) →
      (v.singleKeyTagged → v.choiceFreeTagged) ∧ (v.singleKeyMap → v.choiceFreeMap)
  | .obj kvs => by
    obtain ⟨h1, h2⟩ := choiceFree_of_singleKey_entries kvs
    constructor
    · intro h
      simp only [JSON.singleKeyTagged] at h
      simp only [JSON.choiceFreeTagged]
      refine ⟨?_, h2 h.2⟩
      have hle := (List.filter_sublist (l := kvs) (p := fun e => isTypeTag e.1)).length_le
      omega
    · intro h
      simp only [JSON.singleKeyMap] at h
      simp only [JSON.choiceFreeMap, noKeyClash]
      exact ⟨h.1.imp (fun hab e => absurd e hab), h1 h.2⟩
  | .null => by simp [JSON.choiceFreeTagged, JSON.choiceFreeMap]
  | .bool _ => by simp [JSON.choiceFreeTagged, JSON.choiceFreeMap]
  | .num _ => by simp [JSON.choiceFreeTagged, JSON.choiceFreeMap]
  | .str _ => by simp [JSON.choiceFreeTagged, JSON.choiceFreeMap]
  | .arr _ => by simp [JSON.choiceFreeTagged, JSON.choiceFreeMap]
theorem choiceFree_of_singleKey_entries :
    (kvs : List (String × JSON)) →
      (singleKeyEntries kvs → choiceFreeEntries kvs) ∧
        (singleKeyPayloads kvs → choiceFreePayloads kvs)
  | [] => by simp [choiceFreeEntries, choiceFreePayloads]
  | (k, v) :: rest => by
    obtain ⟨hv1, hv2⟩ := choiceFree_of_singleKey_value v
    obtain ⟨hr1, hr2⟩ := choiceFree_of_singleKey_entries rest
    constructor
    · intro h
      simp only [singleKeyEntries] at h
      simp only [choiceFreeEntries]
      exact ⟨fun hk => hv1 (h.1 hk), hr1 h.2⟩
    · intro h
      simp only [singleKeyPayloads] at h
      simp only [choiceFreePayloads]
      exact ⟨fun hm => hv2 (h.1 hm), fun hl => choiceFreeArr_of_singleKeyArr v (h.2.1 hl),
        hr2 h.2.2⟩
end

/-- A well-formed input offers no choice to the visiting order. -/
theorem choiceFree_of_singleKeyed (j : JSON) (h : j.singleKeyed) : j.choiceFree :=
  ⟨(choiceFree_of_singleKey_value j).2 h.1, choiceFreeArr_of_singleKeyArr j h.2⟩

mutual
theorem reorders_refl_value : (v : JSON) → v.reorders v
  | .obj kvs => by
    simp only [JSON.reorders]
    exact ⟨kvs, kvs, rfl, reorders_refl_entries kvs, List.Perm.refl _⟩
  | .arr xs => by
    simp only [JSON.reorders]
    exact ⟨xs, rfl, reorders_refl_list xs⟩
  | .null => by simp [JSON.reorders]
  | .bool _ => by simp [JSON.reorders]
  | .num _ => by simp [JSON.reorders]
  | .str _ => by simp [JSON.reorders]
theorem reorders_refl_list : (xs : List JSON) → reordersList xs xs
  | [] => by simp [reordersList]
  | x :: xs => by
    simp only [reordersList]
    exact ⟨x, xs, rfl, reorders_refl_value x, reorders_refl_list xs⟩
theorem reorders_refl_entries : (kvs : List (String × JSON)) → reordersEntries kvs kvs
  | [] => by simp [reordersEntries]
  | (k, v) :: rest => by
    simp only [reordersEntries]
    exact ⟨v, rest, rfl, reorders_refl_value v, reorders_refl_entries rest⟩
end

theorem reorders_obj (kvs kvs1 kvs' : List (String × JSON)) (h : reordersEntries kvs kvs1)
    (hp : kvs1.Perm kvs') : JSON.reorders (.obj kvs) (.obj kvs') := by
  simp only [JSON.reorders]
  exact ⟨kvs1, kvs', rfl, h, hp⟩

theorem reorders_arr (xs ys : List JSON) (h : reordersList xs ys) :
    JSON.reorders (.arr xs) (.arr ys) := by
  simp only [JSON.reorders]
  exact ⟨ys, rfl, h⟩

theorem reordersEntries_cons (k : String) (v v' : JSON) (rest rest' : List (String × JSON))
    (hv : v.reorders v') (hr : reordersEntries rest rest') :
    reordersEntries ((k, v) :: rest) ((k, v') :: rest') := by
  simp only [reordersEntries]
  exact ⟨v', rest', rfl, hv, hr⟩

theorem reordersList_cons (x y : JSON) (xs ys : List JSON) (hx : x.reorders y)
    (hr : reordersList xs ys) : reordersList (x :: xs) (y :: ys) := by
  simp only [reordersList]
  exact ⟨y, ys, rfl, hx, hr⟩

/-! ## Timestamps: what of RFC 3339 Go's `time.Parse` reads -/

/-- What `takeNumber n` leaves is the text without its first `n` characters. -/
theorem takeNumber_drop {n : Nat} {cs : List Char} {p : Nat × List Char}
    (h : takeNumber n cs = some p) : p.2 = cs.drop n := by
  unfold takeNumber at h
  split at h
  · split at h
    · cases h
      rfl
    · cases h
  · cases h

/-- Where `takeChar c` succeeds the text is `c` followed by what it leaves. -/
theorem takeChar_eq {c : Char} {cs r : List Char} (h : takeChar c cs = some r) : cs = c :: r := by
  cases cs with
  | nil => cases h
  | cons d rest =>
    by_cases e : d = c
    · have : takeChar c (d :: rest) = some rest := by simp [takeChar, e]
      rw [this] at h
      cases h
      rw [e]
    · have : takeChar c (d :: rest) = none := by simp [takeChar, e]
      rw [this] at h
      cases h

/-- The tail of the text from index `n` is the text from index `n + 1`. -/
theorem drop_succ_of_cons {cs r : List Char} {c : Char} {n : Nat} (h : cs.drop n = c :: r) :
    r = cs.drop (n + 1) := by
  rw [← List.drop_drop 1 n cs, h]
  rfl

/-- Reading one character at index `n` leaves the text from index `n + 1`. -/
theorem takeChar_drop {c : Char} {cs xs r : List Char} {n : Nat} (hx : xs = cs.drop n)
    (h : takeChar c xs = some r) : r = cs.drop (n + 1) :=
  drop_succ_of_cons ((hx.symm.trans (takeChar_eq h)))

/-- Reading `m` digits at index `n` leaves the text from index `n + m`. -/
theorem takeNumber_drop_drop {m n : Nat} {cs xs : List Char} {p : Nat × List Char}
    (hx : xs = cs.drop n) (h : takeNumber m xs = some p) : p.2 = cs.drop (n + m) := by
  rw [takeNumber_drop h, hx, List.drop_drop]

/-- A date takes the first ten characters. -/
theorem readDate_drop {cs : List Char} {p : (Nat × Nat × Nat) × List Char}
    (h : readDate cs = some p) : p.2 = cs.drop 10 := by
  unfold readDate at h
  simp only [Option.bind_eq_some, Option.some.injEq] at h
  obtain ⟨y, hy, r1, h1, mo, hmo, r2, h2, d, hd, e⟩ := h
  have ey := takeNumber_drop hy
  have e1 := takeChar_drop ey h1
  have emo := takeNumber_drop_drop e1 hmo
  have e2 := takeChar_drop emo h2
  have ed := takeNumber_drop_drop e2 hd
  rw [← e]
  exact ed

/-- Minutes and seconds take six characters, and the seconds are the two digits from the
fourth. -/
theorem readMinuteSecond_spec {cs : List Char} {p : (Nat × Nat) × List Char}
    (h : readMinuteSecond cs = some p) :
    p.2 = cs.drop 6 ∧ (takeNumber 2 (cs.drop 4)).map Prod.fst = some p.1.2 := by
  unfold readMinuteSecond at h
  simp only [Option.bind_eq_some, Option.some.injEq] at h
  obtain ⟨r1, h1, mi, hmi, r2, h2, sec, hsec, e⟩ := h
  have e1 := @takeChar_drop ':' cs cs r1 0 rfl h1
  have emi := takeNumber_drop_drop e1 hmi
  have e2 := takeChar_drop emi h2
  have es := takeNumber_drop_drop e2 hsec
  rw [← e]
  refine ⟨es, ?_⟩
  have : cs.drop 4 = r2 := e2.symm
  rw [this, hsec]
  rfl

/-- The equation of `skipFraction` on a text of two characters or more. -/
theorem skipFraction_cons_cons (seps : List Char) (c d : Char) (rest : List Char) :
    skipFraction seps (c :: d :: rest) =
      if c ∈ seps ∧ isDigit d = true then rest.dropWhile isDigit else c :: d :: rest := rfl

/-- Skipping a fraction leaves characters of the text. -/
theorem mem_of_mem_skipFraction {seps cs : List Char} {x : Char}
    (h : x ∈ skipFraction seps cs) : x ∈ cs := by
  match cs, h with
  | [], h => exact h
  | [_], h => exact h
  | c :: d :: rest, h =>
    rw [skipFraction_cons_cons] at h
    by_cases e : c ∈ seps ∧ isDigit d = true
    · rw [if_pos e] at h
      exact List.mem_cons_of_mem _ (List.mem_cons_of_mem _ ((List.dropWhile_suffix _).subset h))
    · rw [if_neg e] at h
      exact h

/-- A zone of RFC 3339 other than a lower-case `z` is a zone for Go, with the same offset. -/
theorem readZone_relax {x : List Char} {off : Int}
    (h : readZone ['Z', 'z'] 23 59 x = some off) (hz : 'z' ∉ x) :
    readZone ['Z'] 24 60 x = some off := by
  unfold readZone at h ⊢
  split at h
  · next z =>
    have hne : z ≠ 'z' := fun e => hz (by rw [e]; exact List.mem_singleton.mpr rfl)
    by_cases e : z = 'Z'
    · rw [if_pos (by rw [e]; decide)] at h
      rw [if_pos (by rw [e]; decide)]
      exact h
    · rw [if_neg (by simp [e, hne])] at h
      cases h
  · next sign h1 h2 m1 m2 =>
    cases e1 : parseDigits [h1, h2] with
    | none => rw [e1] at h; cases h
    | some hh =>
      cases e2 : parseDigits [m1, m2] with
      | none => rw [e1, e2] at h; cases h
      | some mm =>
        rw [e1, e2] at h
        dsimp only at h ⊢
        by_cases r : hh ≤ 23 ∧ mm ≤ 59
        · rw [if_pos r] at h
          rw [if_pos ⟨by omega, by omega⟩]
          exact h
        · rw [if_neg r] at h
          cases h
  · cases h

/-- No zone starts with a comma. -/
theorem readZone_comma {zulu : List Char} {a b : Nat} {d : Char} {rest : List Char} :
    readZone zulu a b (',' :: d :: rest) = none := by
  unfold readZone
  split
  · next heq => cases heq
  · next sign h1 h2 m1 m2 heq =>
    have hs : sign = ',' := by
      have := (List.cons.inj heq).1
      exact this.symm
    subst hs
    split
    · split
      · rfl
      · rfl
    · rfl
  · rfl

/-- Where the text after a fraction with `.` is a zone, the comma that Go also takes as the
mark of a fraction plays no part. -/
theorem skipFraction_relax {r : List Char} {zulu : List Char} {a b : Nat} {off : Int}
    (h : readZone zulu a b (skipFraction ['.'] r) = some off) :
    skipFraction ['.', ','] r = skipFraction ['.'] r := by
  match r, h with
  | [], _ => rfl
  | [_], _ => rfl
  | c :: d :: rest, h =>
    rw [skipFraction_cons_cons] at h ⊢
    rw [skipFraction_cons_cons]
    by_cases e : c = '.' ∧ isDigit d = true
    · rw [if_pos ⟨by rw [e.1]; decide, e.2⟩, if_pos ⟨by rw [e.1]; decide, e.2⟩]
    · have n1 : ¬ (c ∈ ['.'] ∧ isDigit d = true) := fun hc =>
        e ⟨List.mem_singleton.mp hc.1, hc.2⟩
      rw [if_neg n1] at h
      rw [if_neg n1]
      by_cases e2 : c = ',' ∧ isDigit d = true
      · rw [e2.1, readZone_comma] at h
        cases h
      · rw [if_neg]
        intro hc
        rcases hc with ⟨hm, hd⟩
        simp only [List.mem_cons, List.mem_singleton, List.mem_nil_iff, or_false] at hm
        rcases hm with hm | hm
        · exact e ⟨hm, hd⟩
        · exact e2 ⟨hm, hd⟩

/-- Go reads every valid RFC 3339 timestamp that has `T` and `Z` in upper case and whose
seconds, the two digits from index 17, are not the leap second `60`. -/
theorem goTimeUnix_of_rfc3339Valid (s : String) (hv : rfc3339Valid s = true)
    (ht : 't' ∉ s.data) (hz : 'z' ∉ s.data)
    (hl : (takeNumber 2 (s.data.drop 17)).map Prod.fst ≠ some 60) :
    ∃ n, goTimeUnix s = some n := by
  unfold rfc3339Valid at hv
  unfold goTimeUnix
  cases hd : readDate s.data with
  | none => rw [hd] at hv; cases hv
  | some p =>
    obtain ⟨⟨y, mo, d⟩, r⟩ := p
    have er : r = s.data.drop 10 := readDate_drop hd
    rw [hd] at hv
    dsimp only at hv ⊢
    have hT : (takeChar 'T' r).orElse (fun _ => takeChar 't' r) = takeChar 'T' r := by
      cases h1 : takeChar 'T' r with
      | some _ => rfl
      | none =>
        cases h2 : takeChar 't' r with
        | none => rfl
        | some r1 =>
          exfalso
          apply ht
          have := takeChar_eq h2
          rw [er] at this
          exact List.mem_of_mem_drop (by rw [this]; exact List.mem_cons_self _ _)
    rw [hT] at hv
    cases h1 : takeChar 'T' r with
    | none => rw [h1] at hv; cases hv
    | some r1 =>
      have er1 : r1 = s.data.drop 11 := takeChar_drop er h1
      rw [h1] at hv
      dsimp only at hv ⊢
      cases h2 : takeNumber 2 r1 with
      | none => rw [h2] at hv; cases hv
      | some p2 =>
        obtain ⟨h, r2⟩ := p2
        have er2 : r2 = s.data.drop 13 := takeNumber_drop_drop er1 h2
        rw [h2] at hv
        simp only [Option.orElse] at hv ⊢
        cases h3 : readMinuteSecond r2 with
        | none => rw [h3] at hv; cases hv
        | some p3 =>
          obtain ⟨⟨mi, sec⟩, r3⟩ := p3
          obtain ⟨er3, hsec⟩ := readMinuteSecond_spec h3
          rw [h3] at hv
          dsimp only at hv er3 hsec ⊢
          cases h4 : readZone ['Z', 'z'] 23 59 (skipFraction ['.'] r3) with
          | none => rw [h4] at hv; cases hv
          | some off =>
            rw [h4] at hv
            dsimp only at hv
            have hz3 : 'z' ∉ skipFraction ['.'] r3 := by
              intro hm
              apply hz
              have := mem_of_mem_skipFraction hm
              rw [er3, er2, List.drop_drop] at this
              exact List.mem_of_mem_drop this
            rw [skipFraction_relax h4, readZone_relax h4 hz3]
            dsimp only
            have hs : sec ≠ 60 := by
              intro e
              apply hl
              rw [er2, List.drop_drop] at hsec
              rw [hsec, e]
            simp only [Bool.and_eq_true, Bool.or_eq_true, decide_eq_true_eq] at hv
            obtain ⟨hr, hsec2⟩ := hv
            have hs2 : sec ≤ 59 := by
              rcases hsec2 with h | h
              · exact h
              · exact absurd h.1 hs
            rw [if_pos ⟨hr.1, hr.2.1, hr.2.2.1, hr.2.2.2.1, hr.2.2.2.2.1, hr.2.2.2.2.2, hs2⟩]
            exact ⟨_, rfl⟩

/-! ## The claims -/

/-- Claim C1, which the code breaks. The claim: an entry `k` of an object (its trimmed key
non-empty and shared with no other entry) is in the decoded map exactly when its value is an
object on which `handleDataTypes` returns a non-nil value and no error, and that value is what
is stored. The code: on `{"a": {"S": "x"}, "b": {"L": [{"N": 1}]}}` the dispatch of `a` returns
a non-nil value and no error, yet `transformMap` returns no map at all, in either visiting
order: the entry `b` reaches the unchecked assertion `val.(string)` of `transformList`, which
panics. Whenever `transformMap` does return a map, the map is as the claim says: the value
stored under `trim(k)` is the non-nil result of the dispatch and there is none when the dispatch
fails, returns nil, or the value is no object; so a plain scalar or array is dropped, an Absent
`BOOL` is omitted and a `BOOL` that decodes to `false` is kept. -/
theorem C1_transformMap_keeps_decoded_entries (lib : GoLib) :
    ((∃ r, handleDataTypes lib (trimSpace "a") [("S", .str "x")] = .ok (some r)) ∧
      transformMap lib
        [("a", tagged "S" "x"), ("b", .obj [("L", .arr [.obj [("N", .num one)]])])] = .panic ∧
      transformMap lib
        [("b", .obj [("L", .arr [.obj [("N", .num one)]])]), ("a", tagged "S" "x")] = .panic) ∧
    (∀ pre post k v m, transformMap lib (pre ++ (k, v) :: post) = .ok m →
      trimSpace k ≠ "" → (∀ e ∈ pre ++ post, trimSpace e.1 ≠ trimSpace k) →
      (∀ tv, v = .obj tv →
        GoMap.get m (trimSpace k) = (handleDataTypes lib (trimSpace k) tv).value?) ∧
      (v.isObject = false → GoMap.get m (trimSpace k) = none)) ∧
    (∀ s, transformMap lib [("k", .str s)] = .ok []) ∧
    (∀ l, transformMap lib [("k", .arr l)] = .ok []) ∧
    transformMap lib [("k", tagged "BOOL" "maybe")] = .ok [] ∧
    transformMap lib [("k", tagged "BOOL" "false")] = .ok [("k", .bool false)] := by
  refine ⟨⟨?_, transformMap_sibling_panic lib "x" one⟩, ?_, ?_, ?_, ?_, ?_⟩
  · have e : trimSpace "S" = "S" := rfl
    have hx : trimSpace "x" = "x" := rfl
    cases h : lib.parseRFC3339 "x" with
    | none =>
      refine ⟨.str "x", ?_⟩
      simp only [handleDataTypes, e, if_true, transformString, hx, h]
      rfl
    | some n =>
      refine ⟨.int64 n, ?_⟩
      simp only [handleDataTypes, e, if_true, transformString, hx, h]
      rfl
  · intro pre post k v m hm hk huniq
    exact transformMap_get_of_ok lib pre post k v m hm hk huniq
  · intro s
    rfl
  · intro l
    rfl
  · rfl
  · rfl

/-- Claim C2. Map decoding trims keys and drops empty ones: every key of the map that
`transformMap` returns is non-empty and is the whitespace-trimmed form of an input key; an
entry whose key trims to the empty string can be removed from the input without changing the
outcome; and, with a library for which `x` is no timestamp and `7` parses as a float,
`{"a ": {"S": "x"}, "": {"S": "y"}, "b": {"N": "7"}}` decodes to exactly `{"a": "x", "b": 7}` in
whatever order its entries are visited. -/
theorem C2_transformMap_trims_keys (lib : GoLib) :
    (∀ input m, transformMap lib input = .ok m →
      ∀ k ∈ m.keys, k ≠ "" ∧ ∃ e ∈ input, k = trimSpace e.1) ∧
    (∀ pre post key value, trimSpace key = "" →
      transformMap lib (pre ++ (key, value) :: post) = transformMap lib (pre ++ post)) ∧
    (lib.parseRFC3339 "x" = none → (∃ f, lib.parseFloat "7" = some f) →
      ∀ input,
        input.Perm [("a ", tagged "S" "x"), ("", tagged "S" "y"), ("b", tagged "N" "7")] →
        transformMap lib input = .ok [("a", .str "x"), ("b", .int 7)]) := by
  refine ⟨?_, ?_, ?_⟩
  · intro input m h k hk
    rcases transformMapLoop_keys lib input [] m h k hk with h1 | h1
    · simp [GoMap.keys] at h1
    · exact h1
  · intro pre post key value hk
    exact transformMapLoop_skip lib pre post key value hk []
  · rintro hx ⟨f, hf⟩ input hperm
    have tA : trimSpace "a " = "a" := rfl
    have tE : trimSpace "" = "" := rfl
    have tB : trimSpace "b" = "b" := rfl
    have sx : transformString lib "x" = .ok (some (.str "x")) := by
      have e : trimSpace "x" = "x" := rfl
      unfold transformString
      simp only [e, hx]
      rfl
    have s7 : transformNumber lib "7" = .ok (some (.int 7)) :=
      transformNumber_digits lib "7" (by decide) ⟨'7', by decide, by decide⟩ (by decide) ⟨f, hf⟩
    have hA := handleIfMap_tagged_S lib "x" "a"
    have hB := handleIfMap_tagged_N lib "7" "b"
    rw [sx] at hA
    rw [s7] at hB
    have l1 : strLt "a".data "b".data = true := rfl
    have l2 : strLt "b".data "a".data = false := rfl
    rcases perm_three _ _ _ _ hperm with h | h | h | h | h | h <;> subst h <;>
      simp [transformMap, transformMapLoop, tA, tE, tB, hA, hB, GoMap.set, l1, l2]

/-- The object of claim C2, visited in the order in which it is written, decodes to
`{"a": "x", "b": 7}`. -/
theorem C2_transformMap_trims_keys_witness :
    transformMap digitsLib
        [("a ", tagged "S" "x"), ("", tagged "S" "y"), ("b", tagged "N" "7")] =
      .ok [("a", .str "x"), ("b", .int 7)] :=
  (C2_transformMap_trims_keys digitsLib).2.2 rfl ⟨_, rfl⟩ _ (List.Perm.refl _)

/-- Claim C3, which the code breaks. The claim: `transformMap` returns a map and no error for
every JSON object, whatever its entries contain at any depth, and so does `TransformJSON` on an
object root. The code: on `{"a": {"L": [{"N": 1}]}}` neither returns: the list reaches the
unchecked assertion `val.(string)` of `transformList`, which panics, and the panic passes through
`handleDataTypes` and `transformMap`. The rest of the claim holds: `transformMap` never returns
an error, it returns a map whenever no dispatch of an entry panics (so whenever no array at any
depth of the object has an element with an `N`, `BOOL` or `S` entry of non-string payload), and
an entry whose dispatch fails is only omitted (an unrecognized tag, a payload of the wrong
shape, a list that decodes to nothing). -/
theorem C3_transformMap_never_fails (lib : GoLib) :
    (transformMap lib [("a", .obj [("L", .arr [.obj [("N", .num one)]])])] = .panic ∧
      TransformJSON lib (.obj [("a", .obj [("L", .arr [.obj [("N", .num one)]])])]) = .panic) ∧
    (∀ input msg, transformMap lib input ≠ .fail msg) ∧
    (∀ input msg, TransformJSON lib (.obj input) ≠ .fail msg) ∧
    (∀ input, (∀ e ∈ input, handleIfMap lib (trimSpace e.1) e.2 ≠ some .panic) →
      ∃ m, transformMap lib input = .ok m) ∧
    (∀ input, panicFreeEntries input = true → ∃ m, transformMap lib input = .ok m) ∧
    (∀ pre post key tv msg, handleDataTypes lib (trimSpace key) tv = .fail msg →
      transformMap lib (pre ++ (key, .obj tv) :: post) = transformMap lib (pre ++ post)) ∧
    transformMap lib [("k", .obj [("X", .str "1")])] = .ok [] ∧
    transformMap lib [("k", .obj [("S", .num one)])] = .ok [] ∧
    transformMap lib [("k", .obj [("L", .arr [])])] = .ok [] := by
  have hp : transformMap lib [("a", .obj [("L", .arr [.obj [("N", .num one)]])])] = .panic := by
    have tA : trimSpace "a" = "a" := rfl
    have hL := handleIfMap_L lib [.obj [("N", .num one)]] "a"
    rw [transformList_panic_of_number lib "N" (Or.inl rfl) one [] []] at hL
    simp [transformMap, transformMapLoop, tA, hL, Res.map]
  refine ⟨⟨hp, ?_⟩, ?_, ?_, ?_, ?_, ?_, rfl, rfl, rfl⟩
  · simp only [TransformJSON, hp, Res.map]
  · intro input msg
    exact transformMapLoop_ne_fail lib input [] msg
  · intro input msg h
    simp only [TransformJSON] at h
    cases hm : transformMap lib input with
    | ok m => rw [hm] at h; cases h
    | fail e => exact transformMapLoop_ne_fail lib input [] e hm
    | panic => rw [hm] at h; cases h
  · intro input h
    exact transformMapLoop_ok_of_no_panic lib input h []
  · intro input h
    exact (panicFree_entries lib input h).1 []
  · intro pre post key tv msg hf
    exact transformMapLoop_drop_failed lib pre post key tv msg hf []

/-- Claim C4. List decoding is an order-preserving filter: on an array of single-key objects
`{t: p}` with `t` one of `N`, `BOOL`, `S` and `p` a string, the sequence `transformList` returns
is the sequence of the non-Absent results of the matching normalizers, in input order (and it is
returned whenever that sequence is not empty). With a library that parses `1` as a float,
`[{"N": "1"}, {"S": "noop"}, {"BOOL": "true"}]` yields `[1, true]`. -/
theorem C4_transformList_order_preserving_filter (lib : GoLib) :
    (∀ tps : List (String × String),
      (∀ tp ∈ tps, tp.1 = "N" ∨ tp.1 = "BOOL" ∨ tp.1 = "S") →
      (∀ out, transformList lib (tps.map (fun tp => tagged tp.1 tp.2)) = .ok out →
        out = tps.filterMap (fun tp => (normalizer lib tp.1 tp.2).value?)) ∧
      (tps.filterMap (fun tp => (normalizer lib tp.1 tp.2).value?) ≠ [] →
        transformList lib (tps.map (fun tp => tagged tp.1 tp.2)) =
          .ok (tps.filterMap (fun tp => (normalizer lib tp.1 tp.2).value?)))) ∧
    ((∃ f, lib.parseFloat "1" = some f) →
      transformList lib [tagged "N" "1", tagged "S" "noop", tagged "BOOL" "true"] =
        .ok [.int 1, .bool true]) := by
  have gen : ∀ tps : List (String × String),
      (∀ tp ∈ tps, tp.1 = "N" ∨ tp.1 = "BOOL" ∨ tp.1 = "S") →
      (∀ out, transformList lib (tps.map (fun tp => tagged tp.1 tp.2)) = .ok out →
        out = tps.filterMap (fun tp => (normalizer lib tp.1 tp.2).value?)) ∧
      (tps.filterMap (fun tp => (normalizer lib tp.1 tp.2).value?) ≠ [] →
        transformList lib (tps.map (fun tp => tagged tp.1 tp.2)) =
          .ok (tps.filterMap (fun tp => (normalizer lib tp.1 tp.2).value?))) := by
    intro tps h
    have hl := transformListLoop_tagged lib tps h []
    simp only [List.nil_append] at hl
    unfold transformList
    rw [hl]
    dsimp only
    constructor
    · intro out ho
      by_cases hlen : (tps.filterMap (fun tp => (normalizer lib tp.1 tp.2).value?)).length = 0
      · rw [if_pos hlen] at ho
        cases ho
      · rw [if_neg hlen] at ho
        cases ho
        rfl
    · intro hne
      have : (tps.filterMap (fun tp => (normalizer lib tp.1 tp.2).value?)).length ≠ 0 := by
        simpa [List.length_eq_zero] using hne
      simp only [this, if_false]
  refine ⟨gen, ?_⟩
  rintro ⟨f, hf⟩
  have hn : transformNumber lib "1" = .ok (some (.int 1)) :=
    transformNumber_digits lib "1" (by decide) ⟨'1', by decide, by decide⟩ (by decide) ⟨f, hf⟩
  have h := (gen [("N", "1"), ("S", "noop"), ("BOOL", "true")] (by simp)).2
  have e : [("N", "1"), ("S", "noop"), ("BOOL", "true")].filterMap
      (fun tp => (normalizer lib tp.1 tp.2).value?) = [.int 1, .bool true] := by
    have h2 : transformString lib "noop" = .ok none := rfl
    have h3 : transformBool lib "true" = .ok (some (.bool true)) := rfl
    simp [List.filterMap_cons, normalizer, hn, h2, h3, Res.value?]
  rw [e] at h
  exact h (by simp)

/-- The array of claim C4 decodes to `[1, true]`. -/
theorem C4_transformList_order_preserving_filter_witness :
    transformList digitsLib [tagged "N" "1", tagged "S" "noop", tagged "BOOL" "true"] =
      .ok [.int 1, .bool true] :=
  (C4_transformList_order_preserving_filter digitsLib).2 ⟨_, rfl⟩

/-- Claim C5, which the code breaks. The claim: for every JSON array `transformList` returns an
error exactly when no element yields a non-Absent value, and the non-empty sequence otherwise.
The code: on `[{"N": 1}]`, where no element yields a value, it returns no error but panics at
the unchecked assertion `val.(string)`; on `[{"N": "1"}, {"N": 1}]`, where an element yields
`1`, it panics too. It panics exactly when an element is an object with an entry keyed `N`,
`BOOL` or `S` whose value is not a string. On every other array the claim holds: the error is
returned exactly when no element yields a value (so on `[]` and on `[{"S": "noop"}]`), and
otherwise the sequence of the values the elements yield. -/
theorem C5_transformList_fails_iff_nothing_survives (lib : GoLib) :
    (transformList lib [.obj [("N", .num one)]] = .panic ∧
      transformList lib [tagged "N" "1", .obj [("N", .num one)]] = .panic) ∧
    (∀ input, transformList lib input = .panic ↔ ∃ x ∈ input, badElement x = true) ∧
    (∀ input, (∀ x ∈ input, badElement x = false) →
      (transformList lib input = .fail "list is empty or contains no valid items" ↔
        ∀ x ∈ input, elementValues lib x = []) ∧
      ((∃ x ∈ input, elementValues lib x ≠ []) →
        transformList lib input = .ok (survivors lib input) ∧ survivors lib input ≠ [])) ∧
    transformList lib [] = .fail "list is empty or contains no valid items" ∧
    transformList lib [tagged "S" "noop"] = .fail "list is empty or contains no valid items" := by
  refine ⟨⟨?_, ?_⟩, transformList_panic_iff lib, ?_, rfl, rfl⟩
  · exact transformList_panic_of_number lib "N" (Or.inl rfl) one [] []
  · exact (transformList_panic_iff lib _).mpr ⟨.obj [("N", .num one)], by simp, rfl⟩
  · intro input h
    obtain ⟨h1, h2⟩ := transformList_of_no_bad lib input h
    rw [← survivors_eq_nil_iff]
    constructor
    · constructor
      · intro hf
        by_contra hne
        rw [h2 hne] at hf
        cases hf
      · exact h1
    · intro hex
      have hne : survivors lib input ≠ [] := by
        rw [Ne, survivors_eq_nil_iff]
        intro hall
        obtain ⟨x, hx, hxe⟩ := hex
        exact hxe (hall x hx)
      exact ⟨h2 hne, hne⟩

/-- Claim C6. Top-level dispatch: `TransformJSON` is `transformMap` on an object (the map
returned as the value), is `transformList` on an array (its error, or its panic, passed on), and
fails with an error on a string, a number, a boolean and null. -/
theorem C6_TransformJSON_dispatch (lib : GoLib) :
    (∀ v, TransformJSON lib (.obj v) = (transformMap lib v).map (fun m => some (.map m))) ∧
    (∀ v, TransformJSON lib (.arr v) = (transformList lib v).map (fun l => some (.list l))) ∧
    (∀ s, TransformJSON lib (.str s) = .fail "input must be a JSON object or array") ∧
    (∀ f, TransformJSON lib (.num f) = .fail "input must be a JSON object or array") ∧
    (∀ b, TransformJSON lib (.bool b) = .fail "input must be a JSON object or array") ∧
    TransformJSON lib .null = .fail "input must be a JSON object or array" :=
  ⟨fun _ => rfl, fun _ => rfl, fun _ => rfl, fun _ => rfl, fun _ => rfl, rfl⟩

/-- Claim C7. Type dispatch on a single-key object `{t: p}`: `handleDataTypes` fails with the
error naming the key when `trim(t)` is none of `S`, `N`, `BOOL`, `NULL`, `L`, `M`, when `p` is
not a string under `S`, `N`, `BOOL` or `NULL`, not an array under `L`, not an object under `M`,
and on the empty object; with a recognized tag and a payload of the right shape its outcome is
that of `transformString`, `transformNumber`, `transformBool`, `transformNull`, `transformList`
or `transformMap` on the payload. -/
theorem C7_handleDataTypes_single_key (lib : GoLib) (key t : String) (p : JSON) :
    (trimSpace t ∉ ["S", "N", "BOOL", "NULL", "L", "M"] →
      handleDataTypes lib key [(t, p)] = .fail ("invalid type or unsupported key: " ++ key)) ∧
    (trimSpace t ∈ ["S", "N", "BOOL", "NULL"] → p.isString = false →
      handleDataTypes lib key [(t, p)] = .fail ("invalid type or unsupported key: " ++ key)) ∧
    (trimSpace t = "L" → p.isArray = false →
      handleDataTypes lib key [(t, p)] = .fail ("invalid type or unsupported key: " ++ key)) ∧
    (trimSpace t = "M" → p.isObject = false →
      handleDataTypes lib key [(t, p)] = .fail ("invalid type or unsupported key: " ++ key)) ∧
    handleDataTypes lib key [] = .fail ("invalid type or unsupported key: " ++ key) ∧
    (∀ s, p = .str s →
      (trimSpace t = "S" → handleDataTypes lib key [(t, p)] = transformString lib s) ∧
      (trimSpace t = "N" → handleDataTypes lib key [(t, p)] = transformNumber lib s) ∧
      (trimSpace t = "BOOL" → handleDataTypes lib key [(t, p)] = transformBool lib s) ∧
      (trimSpace t = "NULL" → handleDataTypes lib key [(t, p)] = transformNull lib s)) ∧
    (∀ l, p = .arr l → trimSpace t = "L" →
      handleDataTypes lib key [(t, p)] = (transformList lib l).map (fun l => some (.list l))) ∧
    (∀ m, p = .obj m → trimSpace t = "M" →
      handleDataTypes lib key [(t, p)] = (transformMap lib m).map (fun m => some (.map m))) := by
  refine ⟨?_, ?_, ?_, ?_, ?_, ?_, ?_, ?_⟩
  · intro h
    simp only [List.mem_cons, List.mem_singleton, List.not_mem_nil, or_false, not_or] at h
    obtain ⟨h1, h2, h3, h4, h5, h6⟩ := h
    simp only [handleDataTypes, h1, h2, h3, h4, h5, h6, if_false]
  · intro h hp
    simp only [List.mem_cons, List.mem_singleton, List.not_mem_nil, or_false] at h
    cases p <;> simp [JSON.isString] at hp <;>
      rcases h with h | h | h | h <;> simp [handleDataTypes, h]
  · intro h hp
    cases p <;> simp [JSON.isArray] at hp <;> simp [handleDataTypes, h]
  · intro h hp
    cases p <;> simp [JSON.isObject] at hp <;> simp [handleDataTypes, h, transformIfMap]
  · simp only [handleDataTypes]
  · intro s hs
    subst hs
    refine ⟨?_, ?_, ?_, ?_⟩ <;> intro h
    · simp [handleDataTypes, h]
    · simp [handleDataTypes, h]
    · simp only [handleDataTypes, h]
      simp [handleDataTypes_bool]
    · simp only [handleDataTypes, h]
      simp [handleDataTypes_null]
  · intro l hl h
    subst hl
    simp [handleDataTypes, h]
  · intro m hm h
    subst hm
    simp [handleDataTypes, h, transformIfMap, transformMap]

/-- A tag written with blanks around it is recognized: `{" S ": "hi"}` dispatches to the string
normalizer. -/
theorem C7_handleDataTypes_single_key_witness :
    handleDataTypes digitsLib "k" [(" S ", .str "hi")] = transformString digitsLib "hi" :=
  ((C7_handleDataTypes_single_key digitsLib "k" " S " (.str "hi")).2.2.2.2.2.1 "hi" rfl).1 rfl

/-- Claim C8 fails on the code: `2024-01-01T1:00:00Z` is no valid RFC 3339 timestamp (its hour
has one digit) and is neither empty nor `noop`, yet `transformString` does not yield it unchanged:
Go's `time.Parse` accepts a one-digit hour, and the result is the integer `1704070800`. -/
theorem C8_counterexample :
    rfc3339Valid (trimSpace "2024-01-01T1:00:00Z") = false ∧
      trimSpace "2024-01-01T1:00:00Z" ≠ "" ∧ trimSpace "2024-01-01T1:00:00Z" ≠ "noop" ∧
      transformString goTimeLib "2024-01-01T1:00:00Z" = .ok (some (.int64 1704070800)) ∧
      transformString goTimeLib "2024-01-01T1:00:00Z" ≠
        .ok (some (.str (trimSpace "2024-01-01T1:00:00Z"))) := by
  have h : transformString goTimeLib "2024-01-01T1:00:00Z" = .ok (some (.int64 1704070800)) := by
    have e : trimSpace "2024-01-01T1:00:00Z" = "2024-01-01T1:00:00Z" := by decide
    have p : goTimeLib.parseRFC3339 "2024-01-01T1:00:00Z" = some 1704070800 := by decide
    unfold transformString
    simp only [e, p]
    rfl
  refine ⟨by decide, by decide, by decide, h, ?_⟩
  rw [h]
  intro h2
  cases h2

/-- Claim C8, amended. The string normalizer on the payloads that `time.Parse` rejects: when
`time.Parse(time.RFC3339, ·)` does not accept the trimmed payload, `transformString` yields
Absent exactly when the trimmed payload is empty or is `noop`, and the trimmed payload
otherwise. So `"  hello  "` yields `"hello"`, `"NOOP"` is kept, and `"noop"`, `""` and `"   "`
yield Absent. -/
theorem C8_transformString_non_timestamp (lib : GoLib) :
    (∀ s, lib.parseRFC3339 (trimSpace s) = none →
      (transformString lib s = .ok none ↔ (trimSpace s = "" ∨ trimSpace s = "noop")) ∧
      (¬ (trimSpace s = "" ∨ trimSpace s = "noop") →
        transformString lib s = .ok (some (.str (trimSpace s))))) ∧
    (lib.parseRFC3339 "hello" = none →
      transformString lib "  hello  " = .ok (some (.str "hello"))) ∧
    (lib.parseRFC3339 "NOOP" = none → transformString lib "NOOP" = .ok (some (.str "NOOP"))) ∧
    transformString lib "noop" = .ok none ∧
    transformString lib "" = .ok none ∧
    transformString lib "   " = .ok none := by
  refine ⟨?_, ?_, ?_, rfl, rfl, rfl⟩
  · intro s h
    unfold transformString
    simp only [h]
    by_cases hc : trimSpace s = "" ∨ trimSpace s = "noop"
    · simp [hc]
    · simp [hc]
  · intro h
    have e : trimSpace "  hello  " = "hello" := rfl
    unfold transformString
    simp only [e, h]
    rfl
  · intro h
    have e : trimSpace "NOOP" = "NOOP" := rfl
    unfold transformString
    simp only [e, h]
    rfl

/-- With Go's reading of timestamps, the payload `"  hello  "` yields `"hello"` and the payload
`"NOOP"` is kept. -/
theorem C8_transformString_non_timestamp_witness :
    transformString goTimeLib "  hello  " = .ok (some (.str "hello")) ∧
      transformString goTimeLib "NOOP" = .ok (some (.str "NOOP")) :=
  ⟨(C8_transformString_non_timestamp goTimeLib).2.1 (by decide),
    (C8_transformString_non_timestamp goTimeLib).2.2.1 (by decide)⟩

/-- Claim C9. The number normalizer strips leading zeros and yields an integer: when the
trimmed payload is a run of ASCII decimal digits, not all of them `0`, whose value fits a signed
64-bit integer, and `strconv.ParseFloat` accepts the run without its leading zeros (Go's does,
for every such run), `transformNumber` yields the Go `int` with that value. -/
theorem C9_transformNumber_integer (lib : GoLib) (s : String)
    (hdig : ∀ c ∈ (trimSpace s).data, isDigit c = true)
    (hnz : ∃ c ∈ (trimSpace s).data, c ≠ '0')
    (hfit : decimalValue (trimSpace s).data < 2 ^ 63)
    (hlib : ∃ f, lib.parseFloat (trimLeftZeros (trimSpace s)) = some f) :
    transformNumber lib s = .ok (some (.int (decimalValue (trimSpace s).data))) :=
  transformNumber_digits lib s hdig hnz hfit hlib

/-- The payload `"0042"` yields the integer `42`. -/
theorem C9_transformNumber_integer_witness :
    transformNumber digitsLib "0042" = .ok (some (.int 42)) :=
  C9_transformNumber_integer digitsLib "0042" (by decide) ⟨'4', by decide, by decide⟩
    (by decide) ⟨_, rfl⟩

/-- Claim C10. The number normalizer yields Absent when nothing numeric is left: when the
trimmed payload without its leading `0` characters is empty, or `strconv.ParseFloat` rejects it,
`transformNumber` yields Absent. So `"0"`, `"000"`, the empty and the blank string yield Absent,
so does `"abc"` with a library that does not parse it, and the entry `{"N": "0"}` is omitted
from the decoded map. -/
theorem C10_transformNumber_absent (lib : GoLib) :
    (∀ s, trimLeftZeros (trimSpace s) = "" ∨ lib.parseFloat (trimLeftZeros (trimSpace s)) = none →
      transformNumber lib s = .ok none) ∧
    transformNumber lib "0" = .ok none ∧
    transformNumber lib "000" = .ok none ∧
    transformNumber lib "" = .ok none ∧
    transformNumber lib "   " = .ok none ∧
    (lib.parseFloat "abc" = none → transformNumber lib "abc" = .ok none) ∧
    (∀ k, transformMap lib [(k, .obj [("N", .str "0")])] = .ok []) := by
  have gen : ∀ s, trimLeftZeros (trimSpace s) = "" ∨
      lib.parseFloat (trimLeftZeros (trimSpace s)) = none → transformNumber lib s = .ok none := by
    intro s h
    unfold transformNumber isValidNumber
    rcases h with h | h
    · simp [h]
    · simp [h]
  refine ⟨gen, gen _ (Or.inl rfl), gen _ (Or.inl rfl), gen _ (Or.inl rfl), gen _ (Or.inl rfl),
    fun h => gen _ (Or.inr h), ?_⟩
  intro k
  have h0 : transformNumber lib "0" = .ok none := gen _ (Or.inl rfl)
  have e : trimSpace "N" = "N" := rfl
  unfold transformMap
  by_cases hk : trimSpace k = ""
  · simp [transformMapLoop, hk]
  · simp [transformMapLoop, hk, handleIfMap, handleDataTypes, e, h0]

/-- The payload `"abc"` yields Absent. -/
theorem C10_transformNumber_absent_witness : transformNumber digitsLib "abc" = .ok none :=
  (C10_transformNumber_absent digitsLib).2.2.2.2.2.1 rfl

/-- Claim C11. The boolean normalizer: with `t` the lower-cased trimmed payload,
`transformBool` yields `true` exactly when `t` is `1`, `t` or `true`, yields `false` exactly when
`t` is `0`, `f` or `false`, yields Absent for every other payload, and never returns an error
(nor panics). So `"TRUE"` yields `true`, `"0"` yields `false` and `"maybe"` yields Absent. -/
theorem C11_transformBool (lib : GoLib) :
    (∀ s,
      (transformBool lib s = .ok (some (.bool true)) ↔
        (toLower lib (trimSpace s) = "1" ∨ toLower lib (trimSpace s) = "t" ∨
          toLower lib (trimSpace s) = "true")) ∧
      (transformBool lib s = .ok (some (.bool false)) ↔
        (toLower lib (trimSpace s) = "0" ∨ toLower lib (trimSpace s) = "f" ∨
          toLower lib (trimSpace s) = "false")) ∧
      (transformBool lib s = .ok none ↔
        ¬ (toLower lib (trimSpace s) = "1" ∨ toLower lib (trimSpace s) = "t" ∨
            toLower lib (trimSpace s) = "true" ∨ toLower lib (trimSpace s) = "0" ∨
            toLower lib (trimSpace s) = "f" ∨ toLower lib (trimSpace s) = "false")) ∧
      (∀ msg, transformBool lib s ≠ .fail msg) ∧ transformBool lib s ≠ .panic) ∧
    transformBool lib "TRUE" = .ok (some (.bool true)) ∧
    transformBool lib "0" = .ok (some (.bool false)) ∧
    transformBool lib "maybe" = .ok none := by
  refine ⟨?_, rfl, rfl, rfl⟩
  intro s
  unfold transformBool
  simp only
  generalize toLower lib (trimSpace s) = t
  by_cases h1 : t = "1" ∨ t = "t" ∨ t = "true"
  · have h0 : ¬ (t = "0" ∨ t = "f" ∨ t = "false") := by
      rcases h1 with h | h | h <;> subst h <;> decide
    simp only [h1, if_true]
    refine ⟨?_, ?_, ?_, ?_, ?_⟩
    · simp
    · simp [h0]
    · exact ⟨fun h => (by cases h), fun h => absurd (by tauto) h⟩
    · intro msg
      simp
    · simp
  · by_cases h0 : t = "0" ∨ t = "f" ∨ t = "false"
    · simp only [h1, if_false, h0, if_true]
      refine ⟨?_, ?_, ?_, ?_, ?_⟩
      · simp
      · simp
      · exact ⟨fun h => (by cases h), fun h => absurd (by tauto) h⟩
      · intro msg
        simp
      · simp
    · simp only [h1, if_false, h0]
      refine ⟨?_, ?_, ?_, ?_, ?_⟩
      · simp
      · simp
      · simp only [true_iff]
        tauto
      · intro msg
        simp
      · simp

/-- Claim C12. Entries tagged `NULL` are always omitted: `transformNull` returns Absent and no
error for every string, and an entry whose value is `{"NULL": p}`, whatever the payload `p`
(string or not) and whatever else the object holds, can be removed from the object without
changing what `transformMap` returns; alone in an object it decodes to the empty map. -/
theorem C12_null_entries_omitted (lib : GoLib) :
    (∀ s, transformNull lib s = .ok none) ∧
    (∀ pre post k p,
      transformMap lib (pre ++ (k, .obj [("NULL", p)]) :: post) = transformMap lib (pre ++ post)) ∧
    (∀ k p, transformMap lib [(k, .obj [("NULL", p)])] = .ok []) := by
  have key : ∀ pre post k p,
      transformMap lib (pre ++ (k, .obj [("NULL", p)]) :: post) =
        transformMap lib (pre ++ post) := by
    intro pre post k p
    have h := handleDataTypes_NULL lib (trimSpace k) "NULL" p rfl
    apply transformMapLoop_drop
    · intro r
      simp only [handleIfMap]
      rcases h with h | h <;> rw [h] <;> simp
    · simp only [handleIfMap]
      rcases h with h | h <;> rw [h] <;> simp
  refine ⟨transformNull_eq lib, key, ?_⟩
  intro k p
  exact key [] [] k p

/-- Claim C13 fails on the code: `2024-01-01t00:00:00z` and `1990-12-31T23:59:60Z` are valid
RFC 3339 timestamps (the RFC admits lower-case `t` and `z`, and the second is its own example of
a leap second), yet `transformString` yields no integer for them but the string unchanged: Go's
`time.Parse` rejects both. -/
theorem C13_counterexample :
    rfc3339Valid (trimSpace "2024-01-01t00:00:00z") = true ∧
      transformString goTimeLib "2024-01-01t00:00:00z" =
        .ok (some (.str "2024-01-01t00:00:00z")) ∧
      (∀ n, transformString goTimeLib "2024-01-01t00:00:00z" ≠ .ok (some (.int64 n))) ∧
      rfc3339Valid (trimSpace "1990-12-31T23:59:60Z") = true ∧
      transformString goTimeLib "1990-12-31T23:59:60Z" =
        .ok (some (.str "1990-12-31T23:59:60Z")) ∧
      (∀ n, transformString goTimeLib "1990-12-31T23:59:60Z" ≠ .ok (some (.int64 n))) := by
  have h1 : transformString goTimeLib "2024-01-01t00:00:00z" =
      .ok (some (.str "2024-01-01t00:00:00z")) := by
    have e : trimSpace "2024-01-01t00:00:00z" = "2024-01-01t00:00:00z" := by decide
    have p : goTimeLib.parseRFC3339 "2024-01-01t00:00:00z" = none := by decide
    unfold transformString
    simp only [e, p]
    rfl
  have h2 : transformString goTimeLib "1990-12-31T23:59:60Z" =
      .ok (some (.str "1990-12-31T23:59:60Z")) := by
    have e : trimSpace "1990-12-31T23:59:60Z" = "1990-12-31T23:59:60Z" := by decide
    have p : goTimeLib.parseRFC3339 "1990-12-31T23:59:60Z" = none := by decide
    unfold transformString
    simp only [e, p]
    rfl
  refine ⟨by decide, h1, ?_, by decide, h2, ?_⟩
  · intro n h
    rw [h1] at h
    cases h
  · intro n h
    rw [h2] at h
    cases h

/-- Claim C13, amended. The string normalizer converts what `time.Parse` accepts to epoch
seconds: for a library that takes neither the empty string nor `noop` for a timestamp (Go's does
not), whenever `time.Parse(time.RFC3339, ·)` accepts the trimmed payload, `transformString`
yields the `int64` that `Unix()` gives for it instead of the string. Where the library reads the
trimmed payload as Go's parser does, that is so for every valid RFC 3339 timestamp written with
`T` and `Z` in upper case and without a leap second (its seconds, the two digits from index 17,
are not `60`); and `2024-01-01T00:00:00Z` yields `1704067200`. -/
theorem C13_transformString_timestamp (lib : GoLib)
    (hempty : lib.parseRFC3339 "" = none) (hnoop : lib.parseRFC3339 "noop" = none) :
    (∀ s n, lib.parseRFC3339 (trimSpace s) = some n →
      transformString lib s = .ok (some (.int64 n))) ∧
    (∀ s, rfc3339Valid (trimSpace s) = true →
      't' ∉ (trimSpace s).data → 'z' ∉ (trimSpace s).data →
      (takeNumber 2 ((trimSpace s).data.drop 17)).map Prod.fst ≠ some 60 →
      lib.parseRFC3339 (trimSpace s) = goTimeUnix (trimSpace s) →
      ∃ n, goTimeUnix (trimSpace s) = some n ∧
        transformString lib s = .ok (some (.int64 n))) ∧
    (lib.parseRFC3339 "2024-01-01T00:00:00Z" = goTimeUnix "2024-01-01T00:00:00Z" →
      transformString lib "2024-01-01T00:00:00Z" = .ok (some (.int64 1704067200))) := by
  have gen : ∀ s n, lib.parseRFC3339 (trimSpace s) = some n →
      transformString lib s = .ok (some (.int64 n)) := by
    intro s n h
    have h1 : trimSpace s ≠ "" := by
      intro e
      rw [e, hempty] at h
      cases h
    have h2 : trimSpace s ≠ "noop" := by
      intro e
      rw [e, hnoop] at h
      cases h
    unfold transformString
    simp only [h1, h2, or_self, if_false, h]
  refine ⟨gen, ?_, ?_⟩
  · intro s hv ht hz hl hlib
    obtain ⟨n, hn⟩ := goTimeUnix_of_rfc3339Valid (trimSpace s) hv ht hz hl
    exact ⟨n, hn, gen s n (hlib.trans hn)⟩
  · intro h
    have e : goTimeUnix "2024-01-01T00:00:00Z" = some 1704067200 := by decide
    exact gen "2024-01-01T00:00:00Z" 1704067200 (h.trans e)

/-- With Go's reading of timestamps, the payload `" 2024-01-01T00:00:00Z "` yields the integer
`1704067200`, and the payload `"2024-06-30T23:59:59.25+05:30"`, a valid timestamp in upper case
without a leap second, yields an integer. -/
theorem C13_transformString_timestamp_witness :
    transformString goTimeLib " 2024-01-01T00:00:00Z " = .ok (some (.int64 1704067200)) ∧
      ∃ n, goTimeUnix (trimSpace "2024-06-30T23:59:59.25+05:30") = some n ∧
        transformString goTimeLib "2024-06-30T23:59:59.25+05:30" = .ok (some (.int64 n)) :=
  ⟨(C13_transformString_timestamp goTimeLib (by decide) (by decide)).1
      " 2024-01-01T00:00:00Z " 1704067200 (by decide),
    (C13_transformString_timestamp goTimeLib (by decide) (by decide)).2.1
      "2024-06-30T23:59:59.25+05:30" (by decide) (by decide) (by decide) (by decide) rfl⟩

/-- Claim C14. List decoding handles only `N`, `BOOL` and `S`: an array element that is no
object, or an object none of whose keys is exactly `N`, `BOOL` or `S` (so an element tagged `L`,
`M` or `NULL`), can be removed from the array, alone or all such elements at once, without
changing what `transformList` returns; an array of such elements only decodes to the error of
the empty list. -/
theorem C14_transformList_only_scalar_tags (lib : GoLib) :
    (∀ pre post x, skipped x = true →
      transformList lib (pre ++ x :: post) = transformList lib (pre ++ post)) ∧
    (∀ input, transformList lib (input.filter (fun x => !skipped x)) = transformList lib input) ∧
    (∀ l m p s f b,
      skipped (.obj [("L", .arr l)]) = true ∧ skipped (.obj [("M", .obj m)]) = true ∧
      skipped (.obj [("NULL", p)]) = true ∧ skipped (.obj []) = true ∧
      skipped (.arr l) = true ∧ skipped (.str s) = true ∧ skipped (.num f) = true ∧
      skipped (.bool b) = true ∧ skipped .null = true) ∧
    transformList lib
      [.obj [("L", .arr [tagged "N" "1"])], .obj [("M", .obj [("a", tagged "S" "x")])],
        tagged "NULL" "true", .arr [tagged "S" "x"], .str "x", .null] =
      .fail "list is empty or contains no valid items" := by
  refine ⟨?_, ?_, ?_, rfl⟩
  · intro pre post x hx
    exact transformList_congr lib _ _ (transformListLoop_skip lib pre post x hx [])
  · intro input
    exact transformList_congr lib _ _ (transformListLoop_filter lib input [])
  · intro l m p s f b
    exact ⟨rfl, rfl, rfl, rfl, rfl, rfl, rfl, rfl, rfl⟩

/-- Claim C15 fails on the code: `{"a": {"S": "x", "N": "1"}}` decodes to `{"a": "x"}` when the
entry `S` of the inner object is visited first and to `{"a": 1}` when `N` is. -/
theorem C15_counterexample :
    JSON.reorders (.obj [("a", .obj [("S", .str "x"), ("N", .str "1")])])
        (.obj [("a", .obj [("N", .str "1"), ("S", .str "x")])]) ∧
      TransformJSON digitsLib (.obj [("a", .obj [("S", .str "x"), ("N", .str "1")])]) =
        .ok (some (.map [("a", .str "x")])) ∧
      TransformJSON digitsLib (.obj [("a", .obj [("N", .str "1"), ("S", .str "x")])]) =
        .ok (some (.map [("a", .int 1)])) ∧
      TransformJSON digitsLib (.obj [("a", .obj [("S", .str "x"), ("N", .str "1")])]) ≠
        TransformJSON digitsLib (.obj [("a", .obj [("N", .str "1"), ("S", .str "x")])]) := by
  refine ⟨?_, rfl, rfl, ?_⟩
  · exact reorders_obj _ [("a", .obj [("N", .str "1"), ("S", .str "x")])] _
      (reordersEntries_cons _ _ _ _ _
        (reorders_obj _ [("S", .str "x"), ("N", .str "1")] _ (reorders_refl_entries _)
          (List.Perm.swap _ _ _))
        (reorders_refl_entries _))
      (List.Perm.refl _)
  · intro h
    have h1 : TransformJSON digitsLib (.obj [("a", .obj [("S", .str "x"), ("N", .str "1")])]) =
        .ok (some (.map [("a", .str "x")])) := rfl
    have h2 : TransformJSON digitsLib (.obj [("a", .obj [("N", .str "1"), ("S", .str "x")])]) =
        .ok (some (.map [("a", .int 1)])) := rfl
    rw [h1, h2] at h
    simp at h

/-- Claim C15, amended. Decoding is deterministic wherever no object offers a choice to the
visiting order: for a document in which every tagged value has at most one key that trims to a
type tag, every list element at most one key among `N`, `BOOL`, `S`, and no two keys of an
object decoded as a map share a non-empty trimmed form, `TransformJSON` has the same outcome
(value, error or panic) on any two readings of the document, whatever the order in which they
visit the entries of each object. -/
theorem C15_TransformJSON_deterministic (lib : GoLib) (j j₁ j₂ : JSON) (hc : j.choiceFree)
    (h₁ : j.reorders j₁) (h₂ : j.reorders j₂) : TransformJSON lib j₁ = TransformJSON lib j₂ :=
  (TransformJSON_reorders lib j j₁ hc h₁).symm.trans (TransformJSON_reorders lib j j₂ hc h₂)

/-- The document `{"b": {"S": "x", "note": 1}, "a ": {"L": [{"N": "7", "unit": "kg"}]}}` offers
no choice, and it decodes to the same value when every object is visited in the reverse
order. -/
theorem C15_TransformJSON_deterministic_witness :
    TransformJSON digitsLib
        (.obj [("b", .obj [("S", .str "x"), ("note", .num one)]),
          ("a ", .obj [("L", .arr [.obj [("N", .str "7"), ("unit", .str "kg")]])])]) =
      TransformJSON digitsLib
        (.obj [("a ", .obj [("L", .arr [.obj [("unit", .str "kg"), ("N", .str "7")]])]),
          ("b", .obj [("note", .num one), ("S", .str "x")])]) :=
  C15_TransformJSON_deterministic digitsLib
    (.obj [("b", .obj [("S", .str "x"), ("note", .num one)]),
      ("a ", .obj [("L", .arr [.obj [("N", .str "7"), ("unit", .str "kg")]])])])
    _ _
    (by
      refine ⟨?_, trivial⟩
      simp only [JSON.choiceFreeMap, choiceFreeEntries, JSON.choiceFreeTagged,
        choiceFreePayloads, JSON.choiceFreeArr]
      refine ⟨by unfold noKeyClash; decide, ⟨fun _ => ⟨by decide, ?_⟩, fun _ => ⟨by decide, ?_⟩,
        trivial⟩⟩
      · exact ⟨fun h => absurd h (by decide), fun h => absurd h (by decide),
          fun h => absurd h (by decide), fun h => absurd h (by decide), trivial⟩
      · refine ⟨fun h => absurd h (by decide), fun _ => ?_, trivial⟩
        intro x hx
        rw [List.mem_singleton.mp hx]
        decide)
    (reorders_refl_value _)
    (reorders_obj _
      [("b", .obj [("note", .num one), ("S", .str "x")]),
        ("a ", .obj [("L", .arr [.obj [("unit", .str "kg"), ("N", .str "7")]])])] _
      (reordersEntries_cons _ _ _ _ _
        (reorders_obj _ [("S", .str "x"), ("note", .num one)] _ (reorders_refl_entries _)
          (List.Perm.swap _ _ _))
        (reordersEntries_cons _ _ _ _ _
          (reorders_obj _ [("L", .arr [.obj [("unit", .str "kg"), ("N", .str "7")]])] _
            (reordersEntries_cons _ _ _ _ _
              (reorders_arr _ _
                (reordersList_cons _ _ _ _
                  (reorders_obj _ [("N", .str "7"), ("unit", .str "kg")] _
                    (reorders_refl_entries _) (List.Perm.swap _ _ _))
                  (reorders_refl_list [])))
              (reorders_refl_entries []))
            (List.Perm.refl _))
          (reorders_refl_entries [])))
      (List.Perm.swap _ _ _))

/-- Claim C16, which the code breaks. The claim: `TransformJSON` returns a plain value or a
reported error on every parsed JSON value and never aborts, also on `[{"N": 1}]`. The code: the
embedding is a total function, so decoding always terminates, but on `[{"N": 1}]` and on
`{"a": {"L": [{"N": 1}]}}` the outcome is a panic: `transformList` asserts `val.(string)`
unchecked on the number `1`. An array root panics exactly when one of its elements has an entry
keyed `N`, `BOOL` or `S` whose value is no string, and no root panics when no array reached by
the decoding has such an element. -/
theorem C16_TransformJSON_total (lib : GoLib) :
    (TransformJSON lib (.arr [.obj [("N", .num one)]]) = .panic ∧
      TransformJSON lib (.obj [("a", .obj [("L", .arr [.obj [("N", .num one)]])])]) = .panic) ∧
    (∀ xs, TransformJSON lib (.arr xs) = .panic ↔ ∃ x ∈ xs, badElement x = true) ∧
    (∀ j, j.panicFree = true →
      (∃ v, TransformJSON lib j = .ok (some v)) ∨ (∃ msg, TransformJSON lib j = .fail msg)) := by
  refine ⟨⟨?_, ?_⟩, ?_, ?_⟩
  · simp only [TransformJSON, transformList_panic_of_number lib "N" (Or.inl rfl) one [] [],
      Res.map]
  · have tA : trimSpace "a" = "a" := rfl
    have hL := handleIfMap_L lib [.obj [("N", .num one)]] "a"
    rw [transformList_panic_of_number lib "N" (Or.inl rfl) one [] []] at hL
    simp [TransformJSON, transformMap, transformMapLoop, tA, hL, Res.map]
  · intro xs
    rw [← transformList_panic_iff lib xs]
    simp only [TransformJSON]
    cases transformList lib xs <;> simp [Res.map]
  · intro j hj
    cases j with
    | obj kvs =>
      have h2 : panicFreeEntries kvs = true := by simpa [JSON.panicFree] using hj
      obtain ⟨m, hm⟩ := (panicFree_entries lib kvs h2).1 []
      exact Or.inl ⟨.map m, by simp [TransformJSON, transformMap, hm, Res.map]⟩
    | arr xs =>
      have hall : xs.all (fun x => !badElement x) = true := by simpa [JSON.panicFree] using hj
      have hnp : transformList lib xs ≠ .panic := by
        intro hp
        obtain ⟨x, hx, hb⟩ := (transformList_panic_iff lib xs).mp hp
        have := List.all_eq_true.mp hall x hx
        simp [hb] at this
      cases hr : transformList lib xs with
      | ok l => exact Or.inl ⟨.list l, by simp [TransformJSON, hr, Res.map]⟩
      | fail msg => exact Or.inr ⟨msg, by simp [TransformJSON, hr, Res.map]⟩
      | panic => exact absurd hr hnp
    | null => exact Or.inr ⟨_, rfl⟩
    | bool b => exact Or.inr ⟨_, rfl⟩
    | num f => exact Or.inr ⟨_, rfl⟩
    | str s => exact Or.inr ⟨_, rfl⟩

/-- Claim C17 fails on the code: the element `{"BOOL": "true", "S": "x"}` carries two of the
tags and `transformList` appends a value for each, so the output is longer than the input. -/
theorem C17_counterexample :
    ∃ out, transformList digitsLib [.obj [("BOOL", .str "true"), ("S", .str "x")]] = .ok out ∧
      [JSON.obj [("BOOL", .str "true"), ("S", .str "x")]].length < out.length :=
  ⟨[.bool true, .str "x"], rfl, by decide⟩

/-- Claim C17, amended. List decoding appends at most one value per entry keyed `N`, `BOOL` or
`S`: when `transformList` succeeds, its output is no longer than the number of such entries of
the elements of the array, hence no longer than the array when no element carries more than one
of these tags. -/
theorem C17_transformList_one_value_per_tag (lib : GoLib) (input : List JSON)
    (out : List Plain) (h : transformList lib input = .ok out) :
    out.length ≤ (input.map tagCount).sum ∧
    ((∀ x ∈ input, tagCount x ≤ 1) → out.length ≤ input.length) := by
  obtain ⟨h1, _⟩ := transformList_ok_eq_survivors lib input out h
  have h2 := survivors_length_le lib input
  rw [← h1] at h2
  refine ⟨h2, ?_⟩
  intro hall
  have h3 : (input.map tagCount).sum ≤ (input.map tagCount).length • 1 :=
    List.sum_le_card_nsmul _ 1 (by
      intro n hn
      obtain ⟨x, hx, rfl⟩ := List.mem_map.mp hn
      exact hall x hx)
  simp only [List.length_map, smul_eq_mul, mul_one] at h3
  omega

/-- The array `[{"N": "1"}, {"S": "noop"}, {"BOOL": "true"}]` decodes to two values, fewer than
its three elements. -/
theorem C17_transformList_one_value_per_tag_witness :
    [Plain.int 1, Plain.bool true].length ≤
        ([tagged "N" "1", tagged "S" "noop", tagged "BOOL" "true"].map tagCount).sum ∧
      ((∀ x ∈ [tagged "N" "1", tagged "S" "noop", tagged "BOOL" "true"], tagCount x ≤ 1) →
        [Plain.int 1, Plain.bool true].length ≤
          [tagged "N" "1", tagged "S" "noop", tagged "BOOL" "true"].length) :=
  C17_transformList_one_value_per_tag digitsLib
    [tagged "N" "1", tagged "S" "noop", tagged "BOOL" "true"] [.int 1, .bool true] rfl

/-- Claim C18, which the code breaks. The claim: for every JSON object `p`, `handleDataTypes` on
`{"M": p}` returns `transformMap(p)` with no error, to any depth, so a parent entry tagged `M` is
always kept, even with an empty map, whereas an entry tagged `L` with no surviving element is
omitted. The code: on `{"M": {"b": {"L": [{"N": 1}]}}}` the dispatch returns nothing and the
parent entry is not kept: the list reaches the unchecked assertion `val.(string)` of
`transformList`, which panics. The rest holds: the outcome of the dispatch is that of
`transformMap(p)`, it is never an error, the parent entry is kept with the decoded map whenever
`p` decodes (as it does when no array in it has an element that makes `transformList` panic),
`{"a": {"M": {}}}` decodes to `{"a": {}}` and `{"a": {"L": []}}` to `{}`. -/
theorem C18_M_entries_kept (lib : GoLib) :
    (handleDataTypes lib "a" [("M", .obj [("b", .obj [("L", .arr [.obj [("N", .num one)]])])])] =
        .panic ∧
      transformMap lib
        [("a", .obj [("M", .obj [("b", .obj [("L", .arr [.obj [("N", .num one)]])])])])] =
        .panic) ∧
    (∀ key p, handleDataTypes lib key [("M", .obj p)] =
      (transformMap lib p).map (fun m => some (.map m))) ∧
    (∀ key p msg, handleDataTypes lib key [("M", .obj p)] ≠ .fail msg) ∧
    (∀ k p m, trimSpace k ≠ "" → transformMap lib p = .ok m →
      transformMap lib [(k, .obj [("M", .obj p)])] = .ok [(trimSpace k, .map m)]) ∧
    (∀ key p, panicFreeEntries p = true →
      ∃ m, handleDataTypes lib key [("M", .obj p)] = .ok (some (.map m))) ∧
    transformMap lib [("a", .obj [("M", .obj [])])] = .ok [("a", .map [])] ∧
    transformMap lib [("a", .obj [("M", .obj [("b", .obj [("M", .obj [])])])])] =
      .ok [("a", .map [("b", .map [])])] ∧
    transformMap lib [("a", .obj [("L", .arr [])])] = .ok [] := by
  have hp : transformMap lib [("b", .obj [("L", .arr [.obj [("N", .num one)]])])] = .panic := by
    have tB : trimSpace "b" = "b" := rfl
    have hL := handleIfMap_L lib [.obj [("N", .num one)]] "b"
    rw [transformList_panic_of_number lib "N" (Or.inl rfl) one [] []] at hL
    simp [transformMap, transformMapLoop, tB, hL, Res.map]
  refine ⟨⟨?_, ?_⟩, handleDataTypes_M lib, ?_, ?_, ?_, rfl, rfl, rfl⟩
  · rw [handleDataTypes_M, hp]
    rfl
  · rw [transformMap_single_M lib "a" _ (by decide), hp]
  · intro key p msg h
    rw [handleDataTypes_M] at h
    cases hm : transformMap lib p with
    | ok m => rw [hm] at h; cases h
    | fail e => exact transformMapLoop_ne_fail lib p [] e hm
    | panic => rw [hm] at h; cases h
  · intro k p m hk hm
    rw [transformMap_single_M lib k p hk, hm]
  · intro key p hpf
    obtain ⟨m, hm⟩ := (panicFree_entries lib p hpf).1 []
    refine ⟨m, ?_⟩
    rw [handleDataTypes_M]
    simp [transformMap, hm, Res.map]

/-- Claim C19. The shape of the output: whenever `TransformJSON` succeeds, what it returns is a
value (not nil) that is well-formed: every list in it is non-empty and holds only strings,
integers, floats and booleans, never a list or a map, and every key of a map in it, at any
depth, is non-empty and equal to its own whitespace-trim. It holds no null at any depth: a
stored value is a `Plain`, which has no nil, the code storing a value only behind its `!= nil`
test. -/
theorem C19_output_wellFormed (lib : GoLib) (j : JSON) (o : Option Plain)
    (h : TransformJSON lib j = .ok o) : ∃ v, o = some v ∧ v.wellFormed = true := by
  cases j with
  | obj kvs =>
    simp only [TransformJSON, transformMap] at h
    cases hm : transformMapLoop lib kvs [] with
    | ok m =>
      rw [hm] at h
      simp only [Res.map, Res.ok.injEq] at h
      refine ⟨.map m, h.symm, ?_⟩
      simp only [Plain.wellFormed]
      exact (wellFormed_entries lib kvs).1 [] m rfl hm
    | fail msg => rw [hm] at h; simp [Res.map] at h
    | panic => rw [hm] at h; simp [Res.map] at h
  | arr xs =>
    simp only [TransformJSON] at h
    cases hl : transformList lib xs with
    | ok l =>
      rw [hl] at h
      simp only [Res.map, Res.ok.injEq] at h
      exact ⟨.list l, h.symm, transformList_wellFormed lib xs l hl⟩
    | fail msg => rw [hl] at h; simp [Res.map] at h
    | panic => rw [hl] at h; simp [Res.map] at h
  | null => simp [TransformJSON] at h
  | bool b => simp [TransformJSON] at h
  | num f => simp [TransformJSON] at h
  | str s => simp [TransformJSON] at h

/-- The document `{" a ": {"M": {" b": {"L": [{"N": "7"}, {"BOOL": "f"}]}, "c": {"S": "noop"}}}}`
decodes to `{"a": {"b": [7, false]}}`, which is well-formed. -/
theorem C19_output_wellFormed_witness :
    ∃ v, some (Plain.map [("a", .map [("b", .list [.int 7, .bool false])])]) = some v ∧
      v.wellFormed = true :=
  C19_output_wellFormed digitsLib
    (.obj [(" a ", .obj [("M", .obj [(" b", .obj [("L", .arr [tagged "N" "7", tagged "BOOL" "f"])]),
      ("c", tagged "S" "noop")])])])
    (some (.map [("a", .map [("b", .list [.int 7, .bool false])])])) rfl

/-- Claim C20. Order-independence on well-formed input: for a document in which every tagged
value and every list element is a single-key object and, within each object decoded as a map,
the keys have pairwise distinct trimmed forms, `TransformJSON` has the same outcome (value,
error or panic) on any two readings of the document, whatever the order in which they visit the
entries of each object. -/
theorem C20_TransformJSON_order_independent (lib : GoLib) (j j₁ j₂ : JSON) (hw : j.singleKeyed)
    (h₁ : j.reorders j₁) (h₂ : j.reorders j₂) : TransformJSON lib j₁ = TransformJSON lib j₂ :=
  (TransformJSON_reorders lib j j₁ (choiceFree_of_singleKeyed j hw) h₁).symm.trans
    (TransformJSON_reorders lib j j₂ (choiceFree_of_singleKeyed j hw) h₂)

/-- The document `{"b": {"N": "7"}, " a": {"M": {"y": {"BOOL": "t"}, "x": {"L": [{"S": "hi"}]}}}}`
is well-formed, and it decodes to the same value when the entries of the root and of the inner
map are visited in the reverse order. -/
theorem C20_TransformJSON_order_independent_witness :
    TransformJSON digitsLib
        (.obj [("b", tagged "N" "7"),
          (" a", .obj [("M", .obj [("y", tagged "BOOL" "t"),
            ("x", .obj [("L", .arr [tagged "S" "hi"])])])])]) =
      TransformJSON digitsLib
        (.obj [(" a", .obj [("M", .obj [("x", .obj [("L", .arr [tagged "S" "hi"])]),
            ("y", tagged "BOOL" "t")])]),
          ("b", tagged "N" "7")]) :=
  C20_TransformJSON_order_independent digitsLib
    (.obj [("b", tagged "N" "7"),
      (" a", .obj [("M", .obj [("y", tagged "BOOL" "t"),
        ("x", .obj [("L", .arr [tagged "S" "hi"])])])])])
    _ _
    (by
      refine ⟨?_, trivial⟩
      simp only [JSON.singleKeyMap, singleKeyEntries, tagged, JSON.singleKeyTagged,
        singleKeyPayloads, JSON.singleKeyArr]
      refine ⟨by decide, ⟨fun _ => ⟨rfl, ?_⟩, fun _ => ⟨rfl, ?_⟩, trivial⟩⟩
      · exact ⟨fun _ => trivial, fun _ => trivial, trivial⟩
      · refine ⟨fun _ => ⟨by decide, ⟨fun _ => ⟨rfl, ?_⟩, fun _ => ⟨rfl, ?_⟩, trivial⟩⟩,
          fun _ => trivial, trivial⟩
        · exact ⟨fun _ => trivial, fun _ => trivial, trivial⟩
        · refine ⟨fun _ => trivial, fun _ => ?_, trivial⟩
          intro x hx kvs hk
          rw [List.mem_singleton.mp hx] at hk
          cases hk
          rfl)
    (reorders_refl_value _)
    (reorders_obj _
      [("b", tagged "N" "7"),
        (" a", .obj [("M", .obj [("x", .obj [("L", .arr [tagged "S" "hi"])]),
          ("y", tagged "BOOL" "t")])])] _
      (reordersEntries_cons _ _ _ _ _ (reorders_refl_value _)
        (reordersEntries_cons _ _ _ _ _
          (reorders_obj _
            [("M", .obj [("x", .obj [("L", .arr [tagged "S" "hi"])]),
              ("y", tagged "BOOL" "t")])] _
            (reordersEntries_cons _ _ _ _ _
              (reorders_obj _
                [("y", tagged "BOOL" "t"), ("x", .obj [("L", .arr [tagged "S" "hi"])])] _
                (reorders_refl_entries _) (List.Perm.swap _ _ _))
              (reorders_refl_entries []))
            (List.Perm.refl _))
          (reorders_refl_entries [])))
      (List.Perm.swap _ _ _))

end GoJson
